import Mathlib

/-!
Shallow embedding of the sydent replication engine
(`sydent/replication/peer.py` and `sydent/replication/pusher.py`).

External collaborators (database stores, the HTTP client, the
signing/verification capability) are modelled from the interfaces
described in the specification; everything else is translated directly
from the Python source.
-/


/-- An association record as seen through `threePidAssocFromDict`:
`mxid = none` models a null `mxid`, i.e. a tombstone. -/
structure ThreePidAssoc where
  medium : String
  address : String
  mxid : Option String
deriving DecidableEq

/-- Signature map of a signed JSON envelope:
server name to list of (key id, signature), in dict enumeration order. -/
abbrev Signatures := List (String × List (String × String))

/-- A signed association as carried on the wire: the association fields
plus an optional `signatures` field (`none` models a record that has no
`signatures` key at all). -/
structure SignedAssoc where
  assoc : ThreePidAssoc
  signatures : Option Signatures
deriving DecidableEq

/-- Python-style check that `pat` is a prefix of `s` (on character lists). -/
def isPrefixChars : List Char → List Char → Bool
  | [], _ => true
  | _ :: _, [] => false
  | p :: ps, c :: cs => p == c && isPrefixChars ps cs

/-- Fuelled core of Python `str.replace`: replaces non-overlapping
occurrences scanning left to right.  Any `fuel` at least the length of
the subject makes the fuel irrelevant, since every step consumes at
least one character of the subject. -/
def replaceCharsFuel (pat repl : List Char) : Nat → List Char → List Char
  | 0, s => s
  | _ + 1, [] => []
  | fuel + 1, c :: rest =>
    if !pat.isEmpty && isPrefixChars pat (c :: rest) then
      repl ++ replaceCharsFuel pat repl fuel ((c :: rest).drop pat.length)
    else
      c :: replaceCharsFuel pat repl fuel rest

/-- Python `s.replace(pat, repl)` for the non-empty patterns used here. -/
def pyStrReplace (s pat repl : String) : String :=
  String.mk (replaceCharsFuel pat.data repl.data s.data.length s.data)

/-- Python `s.startswith(pat)` (kernel-computable). -/
def pyStartsWith (s pat : String) : Bool :=
  isPrefixChars pat.data s.data

/-- Python `s.endswith(pat)` (kernel-computable). -/
def pyEndsWith (s pat : String) : Bool :=
  isPrefixChars pat.data.reverse s.data.reverse

/-- Python `s[:-n]` for `0 ≤ n ≤ len(s)` (kernel-computable). -/
def pyDropRight (s : String) (n : Nat) : String :=
  String.mk (s.data.take (s.data.length - n))

/-- Python `kid.split(":")[0]`: the characters before the first colon
(the whole string when there is no colon). -/
def algOfKeyId (kid : String) : String :=
  String.mk (kid.data.takeWhile (fun c => !(c == ':')))

/-- Key of the global association store: `(medium, address)`. -/
abbrev AssocKey := String × String

/-- A row of the global associations table. -/
structure GlobalEntry where
  assoc : ThreePidAssoc
  sgAssoc : SignedAssoc
  originServer : String
  originId : Int
deriving DecidableEq

/-- Modelled from the spec: the global association store (`§3`: "only one
live or tombstone state exists per identity in the global store at a
time, last-writer-wins"), as an association list keyed by
`(medium, address)`. -/
abbrev GlobalStore := List (AssocKey × GlobalEntry)

/-- Drop every row stored under an identity (at most one is ever live,
by the upsert discipline). -/
def GlobalStore.eraseKeyAll : GlobalStore → AssocKey → GlobalStore
  | [], _ => []
  | (k1, e) :: rest, k0 =>
    if k1 = k0 then GlobalStore.eraseKeyAll rest k0
    else (k1, e) :: GlobalStore.eraseKeyAll rest k0

/-- Modelled from the spec: `GlobalAssociationStore.addAssociation`, the
`upsert(record, sourceTag, sourceId)` operation of `§6`. -/
def GlobalStore.addAssociation (st : GlobalStore) (a : ThreePidAssoc)
    (sg : SignedAssoc) (server : String) (originId : Int) : GlobalStore :=
  ((a.medium, a.address), ⟨a, sg, server, originId⟩)
    :: st.eraseKeyAll (a.medium, a.address)

/-- Modelled from the spec: `GlobalAssociationStore.removeAssociation`,
the `remove(medium, address)` operation of `§6`. -/
def GlobalStore.removeAssociation (st : GlobalStore)
    (medium address : String) : GlobalStore :=
  st.eraseKeyAll (medium, address)

/-- Lookup of the live/tombstone state stored for an identity. -/
def GlobalStore.lookupAssoc : GlobalStore → AssocKey → Option GlobalEntry
  | [], _ => none
  | (k, e) :: rest, k' =>
    if k = k' then some e else GlobalStore.lookupAssoc rest k'

/-- Modelled from the spec: `GlobalAssociationStore.lastIdFromServer`, the
`highestIdForServer(name)` operation of `§6`. -/
def GlobalStore.lastIdFromServer (st : GlobalStore) (server : String) : Option Int :=
  match (st.filter (fun q => q.snd.originServer == server)).map
      (fun q => q.snd.originId) with
  | [] => none
  | x :: xs => some (xs.foldl max x)

/-- The local peer: bound to this process's own server name. -/
structure LocalPeer where
  servername : String
  lastId : Int
deriving DecidableEq

/-- `LocalPeer.__init__`: `lastId` is the global store's highest row id
already attributed to this server name, or `-1` if there is none. -/
def LocalPeer.ofStore (st : GlobalStore) (serverName : String) : LocalPeer :=
  { servername := serverName
    lastId := (st.lastIdFromServer serverName).getD (-1) }

/-- Body of the `for localId in sgAssocs` loop of `LocalPeer.pushUpdates`:
skip unless `localId > self.lastId`, then upsert (non-null `mxid`) or
remove (null `mxid`). -/
def LocalPeer.pushStep (p : LocalPeer) (st : GlobalStore)
    (e : Int × SignedAssoc) : GlobalStore :=
  if p.lastId < e.fst then
    match e.snd.assoc.mxid with
    | some _ => st.addAssociation e.snd.assoc e.snd p.servername e.fst
    | none => st.removeAssociation e.snd.assoc.medium e.snd.assoc.address
  else st

/-- Result of `LocalPeer.pushUpdates`: the peer object (whose fields the
method never assigns), the updated global store, and the resolved
deferred (`defer.succeed(True)`). -/
structure LocalPushResult where
  peer : LocalPeer
  store : GlobalStore
  ok : Bool
deriving DecidableEq

/-- `LocalPeer.pushUpdates`: iterate the batch in its enumeration order
(the order of Python dict iteration), applying the re-delivery guard and
the upsert/tombstone handling, and resolve successfully. -/
def LocalPeer.pushUpdates (p : LocalPeer) (st : GlobalStore)
    (sgAssocs : List (Int × SignedAssoc)) : LocalPushResult :=
  { peer := p, store := sgAssocs.foldl p.pushStep st, ok := true }

/-- Follows the spec's words, for comparison with `LocalPeer.pushUpdates`:
"iterates the batch's association entries in ascending row-id order". -/
def LocalPeer.pushUpdatesAscendingSpec (p : LocalPeer) (st : GlobalStore)
    (sgAssocs : List (Int × SignedAssoc)) : LocalPushResult :=
  { peer := p
    store := (List.insertionSort (fun a b => a.fst ≤ b.fst) sgAssocs).foldl p.pushStep st
    ok := true }

/-- The expected signing algorithm (`SIGNING_KEY_ALGORITHM = "ed25519"`). -/
def SIGNING_KEY_ALGORITHM : String := "ed25519"

/-- Modelled external helper `signedjson.sign.signature_ids(assoc, name)`:
the key ids listed under `name` in the record's `signatures` map,
restricted to the supported algorithms (`["ed25519"]`, comparing the
part of the key id before the first colon). -/
def signatureIds (a : SignedAssoc) (serverName : String) : List String :=
  match a.signatures with
  | none => []
  | some sigs =>
    ((((sigs.find? (fun q => q.fst == serverName)).map Prod.snd).getD []).map
        Prod.fst).filter
      (fun kid => algOfKeyId kid == SIGNING_KEY_ALGORITHM)

/-- Outcome of `RemotePeer.verifySignedAssociation`: the two typed
rejections raised locally, or delegation to the external
`signedjson.sign.verify_signed_json` capability. -/
inductive VerifyOutcome where
  | noSignatures
  | noMatchingSignature (foundSigs : List String) (requiredServername : String)
  | delegateVerify (servername : String)
deriving DecidableEq

/-- `RemotePeer.verifySignedAssociation`: missing `signatures` field, the
`key_ids[0].startswith("ed25519:")` check with its
`foundSigs = assoc['signatures'].keys()` payload, then delegation. -/
def RemotePeer.verifySignedAssociation (servername : String)
    (a : SignedAssoc) : VerifyOutcome :=
  match a.signatures with
  | none => .noSignatures
  | some sigs =>
    match signatureIds a servername with
    | [] => .noMatchingSignature (sigs.map Prod.fst) servername
    | kid :: _ =>
      if pyStartsWith kid (SIGNING_KEY_ALGORITHM ++ ":") then
        .delegateVerify servername
      else
        .noMatchingSignature (sigs.map Prod.fst) servername

/-- Follows the spec's words, for comparison: "the set of signature key
ids actually present" under the required server name. -/
def specPresentKeyIds (a : SignedAssoc) (serverName : String) : List String :=
  match a.signatures with
  | none => []
  | some sigs =>
    (((sigs.find? (fun q => q.fst == serverName)).map Prod.snd).getD []).map
      Prod.fst

/-- What the transport hands back to `RemotePeer.pushUpdates`'s deferred
chain: an HTTP response (whose body read may itself fail), or a
transport-level failure (connection error, timeout). -/
inductive HttpResult where
  | response (code : Int) (bodyRead : Except String String)
  | transportFailure (err : String)

/-- Asynchronous outcome of `RemotePeer.pushUpdates` (the
`updateDeferred`): success with the response, a `RemotePeerError`
carrying the JSON-decoded error payload, or an errback carrying some
other underlying failure. -/
inductive PushOutcome (J : Type) where
  | success (code : Int)
  | remoteError (errorDict : J)
  | otherFailure (err : String)
deriving DecidableEq

/-- `RemotePeer.pushUpdates` / `_pushSuccess` / `_failedPushBodyRead` /
`_pushFailed` as one total outcome function (all resolution goes through
the deferred, never a synchronous exception): 2xx resolves success;
otherwise the body is read and JSON-decoded into a `RemotePeerError`;
a body-read or JSON-decode failure, like a transport failure, is passed
through to the errback. `parse` models `json.loads`. -/
def RemotePeer.pushUpdatesOutcome {J : Type} (parse : String → Except String J) :
    HttpResult → PushOutcome J
  | .response code bodyRead =>
    if 200 ≤ code ∧ code < 300 then .success code
    else
      match bodyRead with
      | .ok body =>
        match parse body with
        | .ok obj => .remoteError obj
        | .error e => .otherFailure e
      | .error e => .otherFailure e
  | .transportFailure e => .otherFailure e

/-- Outcome of the key-decoding part of `RemotePeer.__init__`. -/
inductive PeerKeyDecodeResult where
  | hexAcceptedWithWarning
  | base64Accepted
  | configError
  | uncaughtDecodeError
deriving DecidableEq

/-- Hexadecimal digit as accepted by Python `int(s, 16)` and
`binascii.unhexlify`. -/
def isHexDigitCh (c : Char) : Bool :=
  c.isDigit || ('a' ≤ c && c ≤ 'f') || ('A' ≤ c && c ≤ 'F')

/-- Strip one optional leading sign, as Python `int` does. -/
def stripSign : List Char → List Char
  | [] => []
  | c :: r => if c = '+' ∨ c = '-' then r else c :: r

/-- Strip one optional `0x` / `0X` base marker, as Python `int(_, 16)` does. -/
def strip0x : List Char → List Char
  | c0 :: c1 :: r => if c0 = '0' ∧ (c1 = 'x' ∨ c1 = 'X') then r else c0 :: c1 :: r
  | l => l

/-- Python `int(pubkey, 16)` succeeds (surrounding whitespace is not
modelled: configured keys carry none). -/
def int16Parses (s : String) : Bool :=
  let t := strip0x (stripSign s.data)
  !t.isEmpty && t.all isHexDigitCh

/-- Python 2 `binascii.unhexlify(pubkey)` succeeds: even length, all hex
digits; otherwise it raises a `TypeError`, which `except ValueError`
does not catch. -/
def unhexlifyOk (s : String) : Bool :=
  s.data.all isHexDigitCh && s.length % 2 == 0

/-- Key decoding in `RemotePeer.__init__`, parametrised by the external
`unpaddedbase64.decode_base64` success predicate: a string that parses
as a base-16 integer is treated as hex (deprecation warning) and its
`unhexlify` failure escapes uncaught; otherwise base64 decoding is
tried, and its failure raises `ConfigError`. -/
def RemotePeer.decodePeerPubkey (b64DecodeOk : String → Bool)
    (pubkey : String) : PeerKeyDecodeResult :=
  if int16Parses pubkey then
    if unhexlifyOk pubkey then .hexAcceptedWithWarning
    else .uncaughtDecodeError
  else
    if b64DecodeOk pubkey then .base64Accepted
    else .configError

/-- A concrete model of `unpaddedbase64.decode_base64` success: all
characters in the base64 alphabet and a length that padding can
complete (length mod 4 is not 1). -/
def b64DecodeOkModel (s : String) : Bool :=
  s.data.all (fun c => c.isAlphanum || c == '+' || c == '/' || c == '=') &&
    s.length % 4 != 1

/-- `EPHEMERAL_PUBLIC_KEYS_PUSH_LIMIT` -/
def EPHEMERAL_PUBLIC_KEYS_PUSH_LIMIT : Nat := 100

/-- `INVITE_TOKENS_PUSH_LIMIT` -/
def INVITE_TOKENS_PUSH_LIMIT : Nat := 100

/-- `ASSOCIATIONS_PUSH_LIMIT` -/
def ASSOCIATIONS_PUSH_LIMIT : Nat := 100

/-- The rows of a table strictly after a cursor (a table is modelled as a
list of rows in ascending id order). -/
def rowsAfter {α : Type} (c : Int) (l : List (Int × α)) : List (Int × α) :=
  l.filter (fun r => decide (c < r.fst))

/-- The rows actually returned by a `getAfterId(cursor, limit)` fetch. -/
def takenRows {α : Type} (l : List (Int × α)) (afterId : Int)
    (limit : Option Nat) : List (Int × α) :=
  match limit with
  | some n => (rowsAfter afterId l).take n
  | none => rowsAfter afterId l

/-- Modelled from the spec: the `getAfterId(cursor, limit)` operation of
the association and join-token stores (`§6`): up to `limit` rows with
`id > afterId` (all such rows when `limit = none`), together with the
maximum (last) returned id, or `none` when nothing was returned. -/
def fetchAfterId {α : Type} (l : List (Int × α)) (afterId : Int)
    (limit : Option Nat) : List (Int × α) × Option Int :=
  (takenRows l afterId limit, (takenRows l afterId limit).getLast?.map Prod.fst)

/-- Python truthiness of an optional configuration string
(`self.sydent.shadow_hs_master` and friends). -/
def optTruthy : Option String → Bool
  | none => false
  | some s => !(s == "")

/-- The shadow-server rewriting applied by
`Pusher.getSignedAssociationsAfterId` before signing: when pushing to a
shadow peer with both shadow hosts configured (and truthy) and the
record's `mxid` truthy, every occurrence of `":" + shadow_hs_master` in
the `mxid` is replaced (`str.replace`) by `":" + shadow_hs_slave`. -/
def shadowRewrite (master slave : Option String) (shadow : Bool)
    (a : ThreePidAssoc) : ThreePidAssoc :=
  if shadow && optTruthy master && optTruthy slave then
    match a.mxid with
    | some m =>
      if m == "" then a
      else
        { a with
          mxid := some (pyStrReplace m (":" ++ master.getD "")
            (":" ++ slave.getD "")) }
    | none => a
  else a

/-- Follows the spec's words, for comparison with `shadowRewrite`:
"replacing an account-identifier domain suffix before signing" - the
`mxid`'s domain suffix `":" + shadow_hs_master`, when present, is
replaced by `":" + shadow_hs_slave`. -/
def shadowRewriteSuffixSpec (master slave : Option String) (shadow : Bool)
    (a : ThreePidAssoc) : ThreePidAssoc :=
  if shadow && optTruthy master && optTruthy slave then
    match a.mxid with
    | some m =>
      if m == "" then a
      else
        if pyEndsWith m (":" ++ master.getD "") then
          { a with
            mxid := some (pyDropRight m (":" ++ master.getD "").length
              ++ (":" ++ slave.getD "")) }
        else a
    | none => a
  else a

/-- The ambient configuration the `Pusher` reads: the signing capability
(`Signer.signedThreePidAssociation`, external) and the shadow host pair. -/
structure PusherConfig where
  sign : ThreePidAssoc → SignedAssoc
  shadowHsMaster : Option String
  shadowHsSlave : Option String

/-- `Pusher.getSignedAssociationsAfterId`: fetch up to `limit` local
associations after `afterId`, apply the shadow rewriting to each, sign
each fetched record, and return them with the store's maximum returned
id. -/
def Pusher.getSignedAssociationsAfterId (cfg : PusherConfig)
    (rows : List (Int × ThreePidAssoc)) (afterId : Int) (limit : Option Nat)
    (shadow : Bool) : List (Int × SignedAssoc) × Option Int :=
  ((fetchAfterId rows afterId limit).fst.map
      (fun (r : Int × ThreePidAssoc) =>
        (r.fst, cfg.sign (shadowRewrite cfg.shadowHsMaster cfg.shadowHsSlave shadow r.snd))),
   (fetchAfterId rows afterId limit).snd)

/-- Follows the spec's words, for comparison with
`Pusher.getSignedAssociationsAfterId`: the same pipeline with the
suffix-only rewriting of `shadowRewriteSuffixSpec`. -/
def Pusher.getSignedAssociationsAfterIdSuffixSpec (cfg : PusherConfig)
    (rows : List (Int × ThreePidAssoc)) (afterId : Int) (limit : Option Nat)
    (shadow : Bool) : List (Int × SignedAssoc) × Option Int :=
  ((fetchAfterId rows afterId limit).fst.map
      (fun (r : Int × ThreePidAssoc) =>
        (r.fst, cfg.sign (shadowRewriteSuffixSpec cfg.shadowHsMaster cfg.shadowHsSlave shadow r.snd))),
   (fetchAfterId rows afterId limit).snd)

/-- The three per-peer replication cursors
(`lastSentAssocsId`, `lastSentInviteTokensId`, `lastSentEphemeralKeysId`). -/
structure Cursors where
  assocs : Int
  inviteTokens : Int
  ephemeralKeys : Int
deriving DecidableEq

/-- The replicated tables, each a list of rows in ascending id order. -/
structure ReplicationStores where
  localAssocs : List (Int × ThreePidAssoc)
  inviteTokens : List (Int × String)
  ephemeralKeys : List (Int × String)
deriving DecidableEq

/-- Asynchronous outcome of one `p.pushUpdates(push_data)` call as seen
by the drain loop: the yield either returns (success), raises the
delivery failure, or raises some other unexpected exception (both of
the latter land in the `except Exception` clause). -/
inductive DeliveryOutcome where
  | success
  | failure
  | exception
deriving DecidableEq

/-- How a drain session ended. -/
inductive SessionExit where
  | drained
  | aborted
  | fuelExhausted
deriving DecidableEq

/-- Result of one drain session: final (persisted) cursors, number of
`pushUpdates` delivery calls, number of fetch rounds, and the exit path. -/
structure SessionResult where
  cursors : Cursors
  deliveries : Nat
  fetchRounds : Nat
  exit : SessionExit
deriving DecidableEq

/-- One iteration's fetch phase of `Pusher._push_to_peer`'s `while True`
loop: fetch the three categories after their cursors (each with its
fixed limit of 100), give the combined update count, and the cursor
values that `PeerStore.setLastSentIdAndPokeSucceeded` would persist.
The persistence is modelled from the spec (`§3`: "a cursor is advanced
only after the corresponding batch is confirmed delivered"): a `none`
max id leaves that category's cursor unchanged. -/
def Pusher.fetchRound (cfg : PusherConfig) (stores : ReplicationStores)
    (shadow : Bool) (cs : Cursors) : Nat × Cursors :=
  ((Pusher.getSignedAssociationsAfterId cfg stores.localAssocs cs.assocs
        (some ASSOCIATIONS_PUSH_LIMIT) shadow).fst.length
      + (fetchAfterId stores.inviteTokens cs.inviteTokens
          (some INVITE_TOKENS_PUSH_LIMIT)).fst.length
      + (fetchAfterId stores.ephemeralKeys cs.ephemeralKeys
          (some EPHEMERAL_PUBLIC_KEYS_PUSH_LIMIT)).fst.length,
   { assocs := ((Pusher.getSignedAssociationsAfterId cfg stores.localAssocs
        cs.assocs (some ASSOCIATIONS_PUSH_LIMIT) shadow).snd).getD cs.assocs
     inviteTokens := ((fetchAfterId stores.inviteTokens cs.inviteTokens
        (some INVITE_TOKENS_PUSH_LIMIT)).snd).getD cs.inviteTokens
     ephemeralKeys := ((fetchAfterId stores.ephemeralKeys cs.ephemeralKeys
        (some EPHEMERAL_PUBLIC_KEYS_PUSH_LIMIT)).snd).getD cs.ephemeralKeys })

/-- The `while True` drain loop of `Pusher._push_to_peer`: fetch a round;
if the combined count is zero, exit normally; otherwise deliver via
`pushUpdates` (`oracle` gives each call's asynchronous outcome) and on
success persist the new cursors and loop, while a failure or exception
aborts the session with the cursors at their last-confirmed values.
`fuel` bounds the number of iterations modelled; with enough fuel the
`fuelExhausted` exit is never taken. -/
def Pusher.drainLoop (cfg : PusherConfig) (stores : ReplicationStores)
    (shadow : Bool) (oracle : Nat → DeliveryOutcome) :
    Nat → Cursors → Nat → Nat → SessionResult
  | 0, cs, calls, rounds => ⟨cs, calls, rounds, .fuelExhausted⟩
  | fuel + 1, cs, calls, rounds =>
    if (Pusher.fetchRound cfg stores shadow cs).fst = 0 then
      ⟨cs, calls, rounds + 1, .drained⟩
    else
      match oracle calls with
      | .success =>
        Pusher.drainLoop cfg stores shadow oracle fuel
          (Pusher.fetchRound cfg stores shadow cs).snd (calls + 1) (rounds + 1)
      | .failure => ⟨cs, calls + 1, rounds + 1, .aborted⟩
      | .exception => ⟨cs, calls + 1, rounds + 1, .aborted⟩

/-- The in-memory per-peer state the `Pusher` manipulates. -/
structure PusherPeerState where
  isBeingPushedTo : Bool
  shadow : Bool
  cursors : Cursors
deriving DecidableEq

/-- Result of one `Pusher._push_to_peer` invocation. -/
structure PushToPeerResult where
  peer : PusherPeerState
  deliveries : Nat
  fetchRounds : Nat
deriving DecidableEq

/-- `Pusher._push_to_peer`: if the peer is already being pushed to, the
invocation is a no-op (the `continue` mid refactor is modelled as the
evident early exit); otherwise the flag is set, the drain loop runs
inside `try`, and the `finally` clause clears the flag on every exit
path before the session ends. -/
def Pusher.pushToPeer (cfg : PusherConfig) (stores : ReplicationStores)
    (oracle : Nat → DeliveryOutcome) (fuel : Nat) (p : PusherPeerState) :
    PushToPeerResult :=
  if p.isBeingPushedTo then ⟨p, 0, 0⟩
  else
    ⟨{ p with
        cursors := (Pusher.drainLoop cfg stores p.shadow oracle fuel p.cursors 0 0).cursors
        isBeingPushedTo := false },
     (Pusher.drainLoop cfg stores p.shadow oracle fuel p.cursors 0 0).deliveries,
     (Pusher.drainLoop cfg stores p.shadow oracle fuel p.cursors 0 0).fetchRounds⟩

/-- The `(medium, address)` identity of a batch entry. -/
def entryKeyOf (e : Int × SignedAssoc) : AssocKey :=
  (e.snd.assoc.medium, e.snd.assoc.address)

/-- What a single (guard-passing) batch entry writes for its identity:
the upserted row for a non-null `mxid`, removal for a null one. -/
def entryWrite (server : String) (e : Int × SignedAssoc) : Option GlobalEntry :=
  match e.snd.assoc.mxid with
  | some _ => some ⟨e.snd.assoc, e.snd, server, e.fst⟩
  | none => none

/-- The last write a batch performs for identity `k` under the
re-delivery guard `lastId`, if any: `none` when no guard-passing entry
of the batch has identity `k`. -/
def lastRelevantWrite (lastId : Int) (server : String)
    (b : List (Int × SignedAssoc)) (k : AssocKey) : Option (Option GlobalEntry) :=
  b.foldl
    (fun acc e =>
      if lastId < e.fst ∧ entryKeyOf e = k then some (entryWrite server e) else acc)
    none

/-- Whether some guard-passing entry of the batch writes identity `k`. -/
def touchedBy (lastId : Int) (b : List (Int × SignedAssoc)) (k : AssocKey) : Bool :=
  b.any (fun e => decide (lastId < e.fst) && decide (entryKeyOf e = k))

/-- The rows of a store whose identity no guard-passing entry of the
batch writes. -/
def untouchedRows (lastId : Int) (b : List (Int × SignedAssoc)) : GlobalStore → GlobalStore
  | [] => []
  | (k1, e) :: rest =>
    if touchedBy lastId b k1 = true then untouchedRows lastId b rest
    else (k1, e) :: untouchedRows lastId b rest

/-! ### Derived notions used to state properties of the drain loop -/

/-- The cursor value the loop persists for one category after one fetch. -/
def nextCursorAfter {α : Type} (l : List (Int × α)) (c : Int)
    (limit : Option Nat) : Int :=
  ((fetchAfterId l c limit).snd).getD c

/-- The cursor a fully drained category ends at: the table's last row id
past the cursor, or the cursor itself when it is already caught up. -/
def drainedCursorAfter {α : Type} (l : List (Int × α)) (c : Int) : Int :=
  ((rowsAfter c l).getLast?.map Prod.fst).getD c

/-- Rows in ascending (strictly increasing) id order. -/
abbrev RowSorted {α : Type} (l : List (Int × α)) : Prop :=
  l.Pairwise (fun a b => a.fst < b.fst)

/-- Number of rounds an all-success session needs for a peer:
the largest per-category `⌈unsent / 100⌉`. -/
def drainMeasure (stores : ReplicationStores) (cs : Cursors) : Nat :=
  max (max (((rowsAfter cs.assocs stores.localAssocs).length + 99) / 100)
      (((rowsAfter cs.inviteTokens stores.inviteTokens).length + 99) / 100))
    (((rowsAfter cs.ephemeralKeys stores.ephemeralKeys).length + 99) / 100)

/-- The cursor update one successful drain iteration persists. -/
def cursorsStep (cfg : PusherConfig) (stores : ReplicationStores)
    (shadow : Bool) (cs : Cursors) : Cursors :=
  (Pusher.fetchRound cfg stores shadow cs).snd

/-! ### Concrete fixtures used by witnesses and counterexamples -/

/-- A concrete model of the external signing capability. -/
def signModel : ThreePidAssoc → SignedAssoc :=
  fun a => ⟨a, some [("origin", [("ed25519:0", "sig")])]⟩

/-- A pusher configuration with no shadow hosts. -/
def cfgPlain : PusherConfig := ⟨signModel, none, none⟩

/-- A pusher configuration with both shadow hosts configured. -/
def cfgShadow : PusherConfig := ⟨signModel, some "hs", some "shadow"⟩

/-- A live association. -/
def assocLive : ThreePidAssoc := ⟨"email", "a@b.c", some "@x:hs"⟩

/-- A live signed association. -/
def sgLive : SignedAssoc := ⟨assocLive, some []⟩

/-- A tombstone signed association for the same identity. -/
def sgTomb : SignedAssoc := ⟨⟨"email", "a@b.c", none⟩, some []⟩

/-- A record signed under server "srv" with a non-ed25519 key id only. -/
def sgOnlyRsa : SignedAssoc := ⟨assocLive, some [("srv", [("rsa:0", "x")])]⟩

/-- A record signed under server "srv" with an ed25519 key id. -/
def sgEd : SignedAssoc := ⟨assocLive, some [("srv", [("ed25519:0", "x")])]⟩

/-- A record with no `signatures` field at all. -/
def sgNone : SignedAssoc := ⟨assocLive, none⟩

/-- Stores with one unsent association and nothing else. -/
def storesOne : ReplicationStores := ⟨[(1, assocLive)], [], []⟩

/-- Stores with 150 unsent associations, 150 unsent invite tokens and no
ephemeral keys: 300 unsent rows in total. -/
def storesBig : ReplicationStores :=
  ⟨(List.range 150).map (fun i => ((i : Int) + 1, assocLive)),
   (List.range 150).map (fun i => ((i : Int) + 1, "tok")),
   []⟩

/-- A delivery oracle whose every call succeeds. -/
def succOracle : Nat → DeliveryOutcome := fun _ => .success

/-- A JSON parser model that returns the body unchanged. -/
def okParse : String → Except String String := fun s => Except.ok s

/-- The local-association row used by the C9 counterexample: the shadow
master host "hs" occurs in the mxid followed by a port, so it is not the
domain suffix. -/
def rowsC9 : List (Int × ThreePidAssoc) := [(1, ⟨"email", "e@x.y", some "@u:hs:8448"⟩)]

/-- The batch used by the C5 counterexample: the tombstone (row id 7) is
enumerated before the live binding (row id 6) for the same identity. -/
def batchC5 : List (Int × SignedAssoc) := [(7, sgTomb), (6, sgLive)]

/-- A local peer built over the empty global store. -/
def peerC5 : LocalPeer := LocalPeer.ofStore [] "srv"

/-- A local peer whose construction-time `lastId` is 5. -/
def peerC6 : LocalPeer := ⟨"srv", 5⟩

/-- An overlapping batch: id 3 is at most `peerC6.lastId`, id 7 is not. -/
def batchC6 : List (Int × SignedAssoc) := [(3, sgLive), (7, sgLive)]

/-! ### Lemmas and claim theorems -/

/-! ### Lemmas about the global store and `LocalPeer.pushUpdates` -/

lemma lookupAssoc_eraseKeyAll (st : GlobalStore) (k0 k : AssocKey) :
    (st.eraseKeyAll k0).lookupAssoc k =
      if k0 = k then none else st.lookupAssoc k := by
  induction st with
  | nil => simp [GlobalStore.eraseKeyAll, GlobalStore.lookupAssoc]
  | cons q rest ih =>
    obtain ⟨k1, e⟩ := q
    by_cases h1 : k1 = k0
    · subst h1
      by_cases h2 : k1 = k
      · subst h2
        simp [GlobalStore.eraseKeyAll, GlobalStore.lookupAssoc, ih]
      · simp [GlobalStore.eraseKeyAll, GlobalStore.lookupAssoc, h2, ih]
    · by_cases h2 : k1 = k
      · subst h2
        have h0 : ¬(k0 = k1) := fun hh => h1 hh.symm
        simp [GlobalStore.eraseKeyAll, GlobalStore.lookupAssoc, h1, h0]
      · simp [GlobalStore.eraseKeyAll, GlobalStore.lookupAssoc, h1, h2, ih]

lemma lookupAssoc_addAssociation (st : GlobalStore) (a : ThreePidAssoc)
    (sg : SignedAssoc) (server : String) (i : Int) (k : AssocKey) :
    (st.addAssociation a sg server i).lookupAssoc k =
      if (a.medium, a.address) = k then some ⟨a, sg, server, i⟩
      else st.lookupAssoc k := by
  by_cases h : (a.medium, a.address) = k
  · simp [GlobalStore.addAssociation, GlobalStore.lookupAssoc, h]
  · simp [GlobalStore.addAssociation, GlobalStore.lookupAssoc, h,
      lookupAssoc_eraseKeyAll]

lemma lookupAssoc_removeAssociation (st : GlobalStore) (m ad : String) (k : AssocKey) :
    (st.removeAssociation m ad).lookupAssoc k =
      if (m, ad) = k then none else st.lookupAssoc k := by
  simp [GlobalStore.removeAssociation, lookupAssoc_eraseKeyAll]

lemma lastRelevantWrite_foldl_isSome (lastId : Int) (server : String) (k : AssocKey)
    (b : List (Int × SignedAssoc)) (x : Option GlobalEntry) :
    ∃ y, b.foldl
      (fun acc e =>
        if lastId < e.fst ∧ entryKeyOf e = k then some (entryWrite server e) else acc)
      (some x) = some y := by
  induction b generalizing x with
  | nil => exact ⟨x, rfl⟩
  | cons e b ih =>
    by_cases hc : lastId < e.fst ∧ entryKeyOf e = k
    · simpa [List.foldl_cons, hc] using ih (entryWrite server e)
    · simpa [List.foldl_cons, hc] using ih x

lemma lastRelevantWrite_foldl_init (lastId : Int) (server : String) (k : AssocKey)
    (b : List (Int × SignedAssoc)) (a : Option (Option GlobalEntry)) :
    b.foldl
      (fun acc e =>
        if lastId < e.fst ∧ entryKeyOf e = k then some (entryWrite server e) else acc)
      a =
      match lastRelevantWrite lastId server b k with
      | some w => some w
      | none => a := by
  induction b generalizing a with
  | nil => simp [lastRelevantWrite]
  | cons e b ih =>
    by_cases hc : lastId < e.fst ∧ entryKeyOf e = k
    · obtain ⟨y, hy⟩ := lastRelevantWrite_foldl_isSome lastId server k b (entryWrite server e)
      simp [lastRelevantWrite, List.foldl_cons, hc, hy]
    · simp only [lastRelevantWrite, List.foldl_cons, hc, if_neg, not_false_iff]
      exact ih a

lemma localPush_store_cons (p : LocalPeer) (st : GlobalStore)
    (e : Int × SignedAssoc) (b : List (Int × SignedAssoc)) :
    (p.pushUpdates st (e :: b)).store = (p.pushUpdates (p.pushStep st e) b).store := by
  simp [LocalPeer.pushUpdates, List.foldl_cons]

lemma lastRelevantWrite_cons (lastId : Int) (server : String) (k : AssocKey)
    (e : Int × SignedAssoc) (b : List (Int × SignedAssoc)) :
    lastRelevantWrite lastId server (e :: b) k =
      match lastRelevantWrite lastId server b k with
      | some w => some w
      | none =>
        if lastId < e.fst ∧ entryKeyOf e = k then some (entryWrite server e)
        else none := by
  show List.foldl _ _ (e :: b) = _
  rw [List.foldl_cons]
  exact lastRelevantWrite_foldl_init lastId server k b _

lemma localPush_store_lookup (p : LocalPeer) (st : GlobalStore)
    (b : List (Int × SignedAssoc)) (k : AssocKey) :
    ((p.pushUpdates st b).store).lookupAssoc k =
      match lastRelevantWrite p.lastId p.servername b k with
      | some w => w
      | none => st.lookupAssoc k := by
  induction b generalizing st with
  | nil => simp [LocalPeer.pushUpdates, lastRelevantWrite]
  | cons e b ih =>
    rw [localPush_store_cons, ih, lastRelevantWrite_cons]
    cases hw : lastRelevantWrite p.lastId p.servername b k with
    | some w => simp
    | none =>
      by_cases hc : p.lastId < e.fst ∧ entryKeyOf e = k
      · obtain ⟨hlt, hkey⟩ := hc
        simp only [hlt, hkey, and_self, if_true]
        cases hm : e.snd.assoc.mxid with
        | some v =>
          have hk : (e.snd.assoc.medium, e.snd.assoc.address) = k := hkey
          simp [LocalPeer.pushStep, hlt, hm, lookupAssoc_addAssociation,
            entryWrite, hk]
        | none =>
          have hk : (e.snd.assoc.medium, e.snd.assoc.address) = k := hkey
          simp [LocalPeer.pushStep, hlt, hm, lookupAssoc_removeAssociation,
            entryWrite, hk]
      · simp only [hc, if_false]
        by_cases hlt : p.lastId < e.fst
        · have hkey : ¬(entryKeyOf e = k) := fun hh => hc ⟨hlt, hh⟩
          have hk : ¬((e.snd.assoc.medium, e.snd.assoc.address) = k) := hkey
          cases hm : e.snd.assoc.mxid with
          | some v =>
            simp [LocalPeer.pushStep, hlt, hm, lookupAssoc_addAssociation, hk]
          | none =>
            simp [LocalPeer.pushStep, hlt, hm, lookupAssoc_removeAssociation, hk]
        · simp [LocalPeer.pushStep, hlt]

lemma touchedBy_cons (lastId : Int) (e : Int × SignedAssoc)
    (b : List (Int × SignedAssoc)) (k : AssocKey) :
    touchedBy lastId (e :: b) k =
      ((decide (lastId < e.fst) && decide (entryKeyOf e = k)) || touchedBy lastId b k) := by
  simp [touchedBy]

lemma untouchedRows_congr (lastId : Int) (b1 b2 : List (Int × SignedAssoc))
    (h : ∀ k, touchedBy lastId b1 k = touchedBy lastId b2 k) :
    ∀ st : GlobalStore, untouchedRows lastId b1 st = untouchedRows lastId b2 st := by
  intro st
  induction st with
  | nil => rfl
  | cons q rest ih =>
    obtain ⟨k1, e⟩ := q
    rw [untouchedRows, untouchedRows, h k1, ih]

lemma untouchedRows_append (lastId : Int) (b : List (Int × SignedAssoc))
    (l1 l2 : GlobalStore) :
    untouchedRows lastId b (l1 ++ l2) =
      untouchedRows lastId b l1 ++ untouchedRows lastId b l2 := by
  induction l1 with
  | nil => rfl
  | cons q rest ih =>
    obtain ⟨k1, e⟩ := q
    by_cases ht : touchedBy lastId b k1 = true
    · simp [untouchedRows, ht, ih]
    · simp [untouchedRows, ht, ih]

lemma untouchedRows_nil_batch (lastId : Int) (st : GlobalStore) :
    untouchedRows lastId [] st = st := by
  induction st with
  | nil => rfl
  | cons q rest ih =>
    obtain ⟨k1, e⟩ := q
    simp [untouchedRows, touchedBy, ih]

lemma untouchedRows_erase (lastId : Int) (b : List (Int × SignedAssoc))
    (e : Int × SignedAssoc) (hlt : lastId < e.fst) :
    ∀ st : GlobalStore,
      untouchedRows lastId b (st.eraseKeyAll (entryKeyOf e)) =
        untouchedRows lastId (e :: b) st := by
  intro st
  induction st with
  | nil => rfl
  | cons q rest ih =>
    obtain ⟨k1, v⟩ := q
    by_cases h1 : k1 = entryKeyOf e
    · have hkey : entryKeyOf e = k1 := h1.symm
      have htc : touchedBy lastId (e :: b) k1 = true := by
        simp [touchedBy_cons, hlt, hkey]
      rw [GlobalStore.eraseKeyAll, if_pos h1, untouchedRows, if_pos htc, ih]
    · have hkey : ¬(entryKeyOf e = k1) := fun hh => h1 hh.symm
      have htc : touchedBy lastId (e :: b) k1 = touchedBy lastId b k1 := by
        simp [touchedBy_cons, hkey]
      rw [GlobalStore.eraseKeyAll, if_neg h1]
      by_cases ht : touchedBy lastId b k1 = true
      · rw [untouchedRows, if_pos ht, untouchedRows, if_pos (htc.trans ht), ih]
      · rw [untouchedRows, if_neg ht, untouchedRows,
          if_neg (fun hh => ht (htc.symm.trans hh)), ih]

lemma pushStore_layout (p : LocalPeer) (st : GlobalStore)
    (b : List (Int × SignedAssoc)) :
    (p.pushUpdates st b).store =
      (p.pushUpdates [] b).store ++ untouchedRows p.lastId b st := by
  induction b generalizing st with
  | nil =>
    simp [LocalPeer.pushUpdates, untouchedRows_nil_batch]
  | cons e b ih =>
    rw [localPush_store_cons, localPush_store_cons, ih, ih (p.pushStep [] e),
      List.append_assoc]
    congr 1
    by_cases hlt : p.lastId < e.fst
    · cases hm : e.snd.assoc.mxid with
      | some v =>
        have hstep : ∀ s : GlobalStore, p.pushStep s e =
            (entryKeyOf e, ⟨e.snd.assoc, e.snd, p.servername, e.fst⟩)
              :: s.eraseKeyAll (entryKeyOf e) := by
          intro s
          simp [LocalPeer.pushStep, hlt, hm, GlobalStore.addAssociation, entryKeyOf]
        rw [hstep, hstep]
        by_cases ht : touchedBy p.lastId b (entryKeyOf e) = true
        · rw [untouchedRows, if_pos ht, untouchedRows, if_pos ht,
            show GlobalStore.eraseKeyAll [] (entryKeyOf e) = [] from rfl,
            show untouchedRows p.lastId b [] = [] from rfl,
            List.nil_append, untouchedRows_erase p.lastId b e hlt]
        · rw [untouchedRows, if_neg ht, untouchedRows, if_neg ht,
            show GlobalStore.eraseKeyAll [] (entryKeyOf e) = [] from rfl,
            show untouchedRows p.lastId b [] = [] from rfl,
            List.cons_append, List.nil_append,
            untouchedRows_erase p.lastId b e hlt]
      | none =>
        have hstep : ∀ s : GlobalStore, p.pushStep s e = s.eraseKeyAll (entryKeyOf e) := by
          intro s
          simp [LocalPeer.pushStep, hlt, hm, GlobalStore.removeAssociation, entryKeyOf]
        rw [hstep, hstep,
          show GlobalStore.eraseKeyAll [] (entryKeyOf e) = [] from rfl,
          show untouchedRows p.lastId b [] = [] from rfl,
          List.nil_append, untouchedRows_erase p.lastId b e hlt]
    · have hstep : ∀ s : GlobalStore, p.pushStep s e = s := by
        intro s
        simp [LocalPeer.pushStep, hlt]
      rw [hstep, hstep,
        show untouchedRows p.lastId b [] = [] from rfl, List.nil_append]
      refine untouchedRows_congr p.lastId b (e :: b) (fun k => ?_) st
      simp [touchedBy_cons, hlt]

lemma mem_eraseKeyAll (st : GlobalStore) (k0 : AssocKey)
    (q : AssocKey × GlobalEntry) (h : q ∈ st.eraseKeyAll k0) : q ∈ st := by
  induction st with
  | nil => simp [GlobalStore.eraseKeyAll] at h
  | cons r rest ih =>
    obtain ⟨k1, e⟩ := r
    by_cases h1 : k1 = k0
    · rw [GlobalStore.eraseKeyAll, if_pos h1] at h
      exact List.mem_cons_of_mem _ (ih h)
    · rw [GlobalStore.eraseKeyAll, if_neg h1] at h
      rcases List.mem_cons.mp h with h | h
      · exact h ▸ List.mem_cons_self _ _
      · exact List.mem_cons_of_mem _ (ih h)

lemma mem_pushStore_touched (p : LocalPeer) (b : List (Int × SignedAssoc)) :
    ∀ (st : GlobalStore) (q : AssocKey × GlobalEntry),
      q ∈ (p.pushUpdates st b).store →
        touchedBy p.lastId b q.fst = true ∨ q ∈ st := by
  induction b with
  | nil =>
    intro st q h
    exact Or.inr (by simpa [LocalPeer.pushUpdates] using h)
  | cons e b ih =>
    intro st q h
    rw [localPush_store_cons] at h
    rcases ih (p.pushStep st e) q h with ht | hmem
    · exact Or.inl (by simp [touchedBy_cons, ht])
    · by_cases hlt : p.lastId < e.fst
      · cases hm : e.snd.assoc.mxid with
        | some v =>
          rw [show p.pushStep st e =
              (entryKeyOf e, ⟨e.snd.assoc, e.snd, p.servername, e.fst⟩)
                :: st.eraseKeyAll (entryKeyOf e) from by
            simp [LocalPeer.pushStep, hlt, hm, GlobalStore.addAssociation,
              entryKeyOf]] at hmem
          rcases List.mem_cons.mp hmem with hq | hq
          · refine Or.inl ?_
            have : q.fst = entryKeyOf e := by rw [hq]
            simp [touchedBy_cons, hlt, this.symm]
          · exact Or.inr (mem_eraseKeyAll st (entryKeyOf e) q hq)
        | none =>
          rw [show p.pushStep st e = st.eraseKeyAll (entryKeyOf e) from by
            simp [LocalPeer.pushStep, hlt, hm, GlobalStore.removeAssociation,
              entryKeyOf]] at hmem
          exact Or.inr (mem_eraseKeyAll st (entryKeyOf e) q hmem)
      · rw [show p.pushStep st e = st from by simp [LocalPeer.pushStep, hlt]] at hmem
        exact Or.inr hmem

lemma untouchedRows_of_all_touched (lastId : Int) (b : List (Int × SignedAssoc)) :
    ∀ st : GlobalStore, (∀ q ∈ st, touchedBy lastId b q.fst = true) →
      untouchedRows lastId b st = [] := by
  intro st h
  induction st with
  | nil => rfl
  | cons q rest ih =>
    obtain ⟨k1, e⟩ := q
    have h1 : touchedBy lastId b k1 = true := h (k1, e) (List.mem_cons_self _ _)
    rw [untouchedRows, if_pos h1]
    exact ih (fun q hq => h q (List.mem_cons_of_mem _ hq))

lemma untouchedRows_pushStore_nil (p : LocalPeer) (b : List (Int × SignedAssoc)) :
    untouchedRows p.lastId b ((p.pushUpdates [] b).store) = [] := by
  refine untouchedRows_of_all_touched p.lastId b _ (fun q hq => ?_)
  rcases mem_pushStore_touched p b [] q hq with ht | habs
  · exact ht
  · exact absurd habs (List.not_mem_nil q)

lemma untouchedRows_idem (lastId : Int) (b : List (Int × SignedAssoc)) :
    ∀ st : GlobalStore,
      untouchedRows lastId b (untouchedRows lastId b st) =
        untouchedRows lastId b st := by
  intro st
  induction st with
  | nil => rfl
  | cons q rest ih =>
    obtain ⟨k1, e⟩ := q
    by_cases ht : touchedBy lastId b k1 = true
    · rw [untouchedRows, if_pos ht, ih]
    · rw [untouchedRows, if_neg ht, untouchedRows, if_neg ht, ih]

lemma pushStore_idem (p : LocalPeer) (st : GlobalStore)
    (b : List (Int × SignedAssoc)) :
    (p.pushUpdates (p.pushUpdates st b).store b).store =
      (p.pushUpdates st b).store := by
  rw [pushStore_layout p ((p.pushUpdates st b).store) b, pushStore_layout p st b,
    untouchedRows_append, untouchedRows_pushStore_nil, List.nil_append,
    untouchedRows_idem]

lemma mem_rowsAfter_lt {α : Type} {l : List (Int × α)} {c : Int}
    {x : Int × α} (h : x ∈ rowsAfter c l) : c < x.fst := by
  have := (List.mem_filter.mp h).2
  exact of_decide_eq_true this

lemma mem_rowsAfter_mem {α : Type} {l : List (Int × α)} {c : Int}
    {x : Int × α} (h : x ∈ rowsAfter c l) : x ∈ l :=
  (List.mem_filter.mp h).1

lemma rowsAfter_eq_self {α : Type} {l : List (Int × α)} {c : Int}
    (h : ∀ x ∈ l, c < x.fst) : rowsAfter c l = l := by
  induction l with
  | nil => rfl
  | cons a t ih =>
    rw [rowsAfter, List.filter_cons, if_pos (by simp [h a (List.mem_cons_self a t)])]
    have := ih (fun x hx => h x (List.mem_cons_of_mem a hx))
    rw [rowsAfter] at this
    rw [this]

lemma rowsAfter_cons {α : Type} (c : Int) (a : Int × α) (t : List (Int × α)) :
    rowsAfter c (a :: t) =
      if c < a.fst then a :: rowsAfter c t else rowsAfter c t := by
  by_cases h : c < a.fst <;> simp [rowsAfter, List.filter_cons, h]

lemma mem_of_getLast?Eq {β : Type} :
    ∀ {l : List β} {x : β}, l.getLast? = some x → x ∈ l := by
  intro l
  induction l with
  | nil => intro x h; simp [List.getLast?] at h
  | cons a t ih =>
    intro x h
    cases t with
    | nil =>
      have : a = x := by simpa [List.getLast?] using h
      exact this ▸ List.mem_cons_self a []
    | cons b t2 =>
      rw [List.getLast?_cons_cons] at h
      exact List.mem_cons_of_mem a (ih h)

lemma getLast?_cons_of_ne_nil {β : Type} (a : β) {t : List β} (h : t ≠ []) :
    (a :: t).getLast? = t.getLast? := by
  cases t with
  | nil => exact absurd rfl h
  | cons b t2 => exact List.getLast?_cons_cons

lemma getLast?_drop_of_ne_nil {β : Type} :
    ∀ (l : List β) (n : Nat), l.drop n ≠ [] →
      (l.drop n).getLast? = l.getLast? := by
  intro l
  induction l with
  | nil => intro n h; simp at h
  | cons a t ih =>
    intro n h
    cases n with
    | zero => rfl
    | succ m =>
      rw [List.drop_succ_cons] at h ⊢
      rw [ih m h]
      have ht : t ≠ [] := by
        intro hh
        subst hh
        simp at h
      exact (getLast?_cons_of_ne_nil a ht).symm

lemma drop_eq_nil_iff_len {β : Type} (l : List β) (n : Nat) :
    l.drop n = [] ↔ l.length ≤ n := by
  constructor
  · intro h
    have := congrArg List.length h
    simp [List.length_drop] at this
    omega
  · intro h
    have hlen : (l.drop n).length = 0 := by
      simp [List.length_drop]
      omega
    exact List.length_eq_zero.mp hlen

lemma take_of_len_le {β : Type} :
    ∀ (l : List β) (n : Nat), l.length ≤ n → l.take n = l := by
  intro l
  induction l with
  | nil => intro n _; simp
  | cons a t ih =>
    intro n h
    cases n with
    | zero => simp at h
    | succ m =>
      rw [List.take_succ_cons, ih m (by simpa using h)]

lemma mem_takenRows {α : Type} {l : List (Int × α)} {c : Int}
    {lim : Option Nat} {x : Int × α} (h : x ∈ takenRows l c lim) :
    x ∈ rowsAfter c l := by
  cases lim with
  | none => exact h
  | some n => exact List.mem_of_mem_take h

lemma le_nextCursorAfter {α : Type} (l : List (Int × α)) (c : Int)
    (lim : Option Nat) : c ≤ nextCursorAfter l c lim := by
  rw [nextCursorAfter, fetchAfterId]
  cases hz : (takenRows l c lim).getLast? with
  | none => simp [hz]
  | some z =>
    simp only [hz, Option.map_some', Option.getD_some]
    exact le_of_lt (mem_rowsAfter_lt (mem_takenRows (mem_of_getLast?Eq hz)))

lemma rowsAfter_nextCursor {α : Type} :
    ∀ (l : List (Int × α)), RowSorted l → ∀ (c : Int) (n : Nat),
      rowsAfter (nextCursorAfter l c (some n)) l = (rowsAfter c l).drop n := by
  intro l
  induction l with
  | nil =>
    intro _ c n
    simp [rowsAfter, nextCursorAfter, fetchAfterId, takenRows]
  | cons a t ih =>
    intro hs c n
    have ha : ∀ x ∈ t, a.fst < x.fst := (List.pairwise_cons.mp hs).1
    have hs' : RowSorted t := (List.pairwise_cons.mp hs).2
    by_cases hca : c < a.fst
    · have hta : rowsAfter c t = t :=
        rowsAfter_eq_self (fun x hx => lt_trans hca (ha x hx))
      have hu : rowsAfter c (a :: t) = a :: t := by
        rw [rowsAfter_cons, if_pos hca, hta]
      cases n with
      | zero =>
        have hcur : nextCursorAfter (a :: t) c (some 0) = c := by
          simp [nextCursorAfter, fetchAfterId, takenRows]
        rw [hcur, hu, List.drop_zero]
      | succ m =>
        have htk : takenRows (a :: t) c (some (m + 1)) = a :: t.take m := by
          rw [takenRows, hu, List.take_succ_cons]
        cases htm : t.take m with
        | nil =>
          have hcur : nextCursorAfter (a :: t) c (some (m + 1)) = a.fst := by
            rw [nextCursorAfter, fetchAfterId, htk, htm]
            rfl
          rw [hcur, hu, List.drop_succ_cons]
          rw [rowsAfter_cons, if_neg (lt_irrefl a.fst)]
          rcases (List.take_eq_nil_iff.mp htm) with hm | htnil
          · subst hm
            rw [List.drop_zero, rowsAfter_eq_self ha]
          · subst htnil
            simp [rowsAfter]
        | cons z0 zs =>
          have htm' : t.take m ≠ [] := by rw [htm]; exact List.cons_ne_nil z0 zs
          obtain ⟨z, hz⟩ : ∃ z, (t.take m).getLast? = some z := by
            cases hq : (t.take m).getLast? with
            | none =>
              rw [List.getLast?_eq_none_iff] at hq
              exact absurd hq htm'
            | some z => exact ⟨z, rfl⟩
          have hcur : nextCursorAfter (a :: t) c (some (m + 1)) = z.fst := by
            rw [nextCursorAfter, fetchAfterId, htk,
              getLast?_cons_of_ne_nil a htm', hz]
            rfl
          have hzt : z ∈ t := List.mem_of_mem_take (mem_of_getLast?Eq hz)
          have haz : a.fst < z.fst := ha z hzt
          have hih := ih hs' a.fst m
          rw [rowsAfter_eq_self ha] at hih
          have hcur' : nextCursorAfter t a.fst (some m) = z.fst := by
            rw [nextCursorAfter, fetchAfterId, takenRows, rowsAfter_eq_self ha, hz]
            rfl
          rw [hcur' ] at hih
          rw [hcur, hu, List.drop_succ_cons, rowsAfter_cons,
            if_neg (fun hlt => absurd (lt_trans haz hlt) (lt_irrefl a.fst)), hih]
    · have hu : rowsAfter c (a :: t) = rowsAfter c t := by
        rw [rowsAfter_cons, if_neg hca]
      have htk : takenRows (a :: t) c (some n) = takenRows t c (some n) := by
        rw [takenRows, takenRows, hu]
      have hcur : nextCursorAfter (a :: t) c (some n) =
          nextCursorAfter t c (some n) := by
        rw [nextCursorAfter, nextCursorAfter, fetchAfterId, fetchAfterId, htk]
      have hc' : c ≤ nextCursorAfter t c (some n) := le_nextCursorAfter t c (some n)
      have hna : ¬(nextCursorAfter t c (some n) < a.fst) := by
        intro hlt
        exact hca (lt_of_le_of_lt hc' hlt)
      rw [hcur, hu, rowsAfter_cons, if_neg hna]
      exact ih hs' c n

lemma drainedCursorAfter_nextCursor {α : Type} (l : List (Int × α))
    (hs : RowSorted l) (c : Int) (n : Nat) :
    drainedCursorAfter l (nextCursorAfter l c (some n)) =
      drainedCursorAfter l c := by
  have h1 := rowsAfter_nextCursor l hs c n
  rw [drainedCursorAfter, h1]
  by_cases hd : (rowsAfter c l).drop n = []
  · rw [hd]
    have hlen : (rowsAfter c l).length ≤ n := (drop_eq_nil_iff_len _ n).mp hd
    have htake : (rowsAfter c l).take n = rowsAfter c l :=
      take_of_len_le _ n hlen
    rw [drainedCursorAfter, nextCursorAfter, fetchAfterId, takenRows, htake]
    rfl
  · rw [getLast?_drop_of_ne_nil _ n hd, drainedCursorAfter]
    have hne : rowsAfter c l ≠ [] := by
      intro hh
      rw [hh] at hd
      simp at hd
    obtain ⟨z, hz⟩ : ∃ z, (rowsAfter c l).getLast? = some z := by
      cases hq : (rowsAfter c l).getLast? with
      | none =>
        rw [List.getLast?_eq_none_iff] at hq
        exact absurd hq hne
      | some z => exact ⟨z, rfl⟩
    rw [hz]
    rfl

lemma rowsAfter_getLast_of_ne_nil {α : Type} :
    ∀ (l : List (Int × α)), RowSorted l → ∀ (c : Int), rowsAfter c l ≠ [] →
      (rowsAfter c l).getLast? = l.getLast? := by
  intro l
  induction l with
  | nil => intro _ c h; exact absurd rfl h
  | cons a t ih =>
    intro hs c h
    have ha : ∀ x ∈ t, a.fst < x.fst := (List.pairwise_cons.mp hs).1
    have hs' : RowSorted t := (List.pairwise_cons.mp hs).2
    by_cases hca : c < a.fst
    · have hta : rowsAfter c t = t :=
        rowsAfter_eq_self (fun x hx => lt_trans hca (ha x hx))
      rw [rowsAfter_cons, if_pos hca, hta]
    · rw [rowsAfter_cons, if_neg hca] at h ⊢
      have htne : t ≠ [] := by
        intro hh
        subst hh
        exact h (by simp [rowsAfter])
      rw [ih hs' c h, getLast?_cons_of_ne_nil a htne]

lemma sorted_getLast_max {α : Type} :
    ∀ (l : List (Int × α)), RowSorted l → ∀ {z : Int × α},
      l.getLast? = some z → ∀ x ∈ l, x.fst ≤ z.fst := by
  intro l
  induction l with
  | nil => intro _ z h; simp [List.getLast?] at h
  | cons a t ih =>
    intro hs z hz x hx
    have ha : ∀ y ∈ t, a.fst < y.fst := (List.pairwise_cons.mp hs).1
    have hs' : RowSorted t := (List.pairwise_cons.mp hs).2
    cases t with
    | nil =>
      have haz : a = z := by simpa [List.getLast?] using hz
      have hxa : x = a := by simpa using hx
      rw [hxa, haz]
    | cons b t2 =>
      rw [List.getLast?_cons_cons] at hz
      have hzt : z ∈ b :: t2 := mem_of_getLast?Eq hz
      rcases List.mem_cons.mp hx with hxa | hxt
      · exact le_of_lt (hxa ▸ ha z hzt)
      · exact ih hs' hz x hxt

lemma rowsAfter_drainedCursor_nil {α : Type} (l : List (Int × α))
    (hs : RowSorted l) (c : Int) :
    rowsAfter (drainedCursorAfter l c) l = [] := by
  by_cases hne : rowsAfter c l = []
  · rw [drainedCursorAfter, hne]
    simpa using hne
  · obtain ⟨z, hz⟩ : ∃ z, (rowsAfter c l).getLast? = some z := by
      cases hq : (rowsAfter c l).getLast? with
      | none =>
        rw [List.getLast?_eq_none_iff] at hq
        exact absurd hq hne
      | some z => exact ⟨z, rfl⟩
    have hdr : drainedCursorAfter l c = z.fst := by
      rw [drainedCursorAfter, hz]
      rfl
    rw [hdr, rowsAfter]
    refine List.filter_eq_nil_iff.mpr (fun x hx => ?_)
    have hle : x.fst ≤ z.fst := by
      by_cases hxu : x ∈ rowsAfter c l
      · exact sorted_getLast_max (rowsAfter c l) (List.Pairwise.filter _ hs) hz x hxu
      · have hnc : ¬(c < x.fst) := by
          intro hcx
          exact hxu (List.mem_filter.mpr ⟨hx, decide_eq_true hcx⟩)
        have hcz : c < z.fst := mem_rowsAfter_lt (mem_of_getLast?Eq hz)
        exact le_of_lt (lt_of_le_of_lt (not_lt.mp hnc) hcz)
    simp [not_lt.mpr hle]

lemma fetchRound_fst (cfg : PusherConfig) (stores : ReplicationStores)
    (shadow : Bool) (cs : Cursors) :
    (Pusher.fetchRound cfg stores shadow cs).fst =
      (takenRows stores.localAssocs cs.assocs (some 100)).length
        + (takenRows stores.inviteTokens cs.inviteTokens (some 100)).length
        + (takenRows stores.ephemeralKeys cs.ephemeralKeys (some 100)).length := by
  simp [Pusher.fetchRound, Pusher.getSignedAssociationsAfterId, fetchAfterId,
    ASSOCIATIONS_PUSH_LIMIT, INVITE_TOKENS_PUSH_LIMIT,
    EPHEMERAL_PUBLIC_KEYS_PUSH_LIMIT]

lemma fetchRound_snd (cfg : PusherConfig) (stores : ReplicationStores)
    (shadow : Bool) (cs : Cursors) :
    (Pusher.fetchRound cfg stores shadow cs).snd =
      ⟨nextCursorAfter stores.localAssocs cs.assocs (some 100),
       nextCursorAfter stores.inviteTokens cs.inviteTokens (some 100),
       nextCursorAfter stores.ephemeralKeys cs.ephemeralKeys (some 100)⟩ := rfl

lemma takenRows_length {α : Type} (l : List (Int × α)) (c : Int) (n : Nat) :
    (takenRows l c (some n)).length = min n (rowsAfter c l).length := by
  simp [takenRows, List.length_take]

/-- One unfolding step of `Pusher.drainLoop`. -/
lemma drainLoop_step (cfg : PusherConfig) (stores : ReplicationStores)
    (shadow : Bool) (oracle : Nat → DeliveryOutcome) (f : Nat) (cs : Cursors)
    (calls rounds : Nat) :
    Pusher.drainLoop cfg stores shadow oracle (f + 1) cs calls rounds =
      (if (Pusher.fetchRound cfg stores shadow cs).fst = 0 then
        (⟨cs, calls, rounds + 1, .drained⟩ : SessionResult)
      else
        match oracle calls with
        | .success =>
          Pusher.drainLoop cfg stores shadow oracle f
            (Pusher.fetchRound cfg stores shadow cs).snd (calls + 1) (rounds + 1)
        | .failure => ⟨cs, calls + 1, rounds + 1, .aborted⟩
        | .exception => ⟨cs, calls + 1, rounds + 1, .aborted⟩) := rfl

lemma drainLoop_all_success (cfg : PusherConfig) (stores : ReplicationStores)
    (shadow : Bool) (oracle : Nat → DeliveryOutcome)
    (hs1 : RowSorted stores.localAssocs)
    (hs2 : RowSorted stores.inviteTokens)
    (hs3 : RowSorted stores.ephemeralKeys)
    (hor : ∀ i, oracle i = DeliveryOutcome.success) :
    ∀ (g : Nat) (cs : Cursors) (calls rounds fuel : Nat),
      drainMeasure stores cs = g → g + 1 ≤ fuel →
      Pusher.drainLoop cfg stores shadow oracle fuel cs calls rounds =
        ⟨⟨drainedCursorAfter stores.localAssocs cs.assocs,
          drainedCursorAfter stores.inviteTokens cs.inviteTokens,
          drainedCursorAfter stores.ephemeralKeys cs.ephemeralKeys⟩,
          calls + g, rounds + g + 1, SessionExit.drained⟩ := by
  intro g
  induction g with
  | zero =>
    intro cs calls rounds fuel hg hf
    obtain ⟨f, rfl⟩ : ∃ f, fuel = f + 1 := ⟨fuel - 1, by omega⟩
    rw [drainMeasure] at hg
    have h1 : rowsAfter cs.assocs stores.localAssocs = [] :=
      List.length_eq_zero.mp (by omega)
    have h2 : rowsAfter cs.inviteTokens stores.inviteTokens = [] :=
      List.length_eq_zero.mp (by omega)
    have h3 : rowsAfter cs.ephemeralKeys stores.ephemeralKeys = [] :=
      List.length_eq_zero.mp (by omega)
    have htot : (Pusher.fetchRound cfg stores shadow cs).fst = 0 := by
      rw [fetchRound_fst, takenRows_length, takenRows_length, takenRows_length,
        h1, h2, h3]
      simp
    rw [drainLoop_step, if_pos htot]
    have hd1 : drainedCursorAfter stores.localAssocs cs.assocs = cs.assocs := by
      rw [drainedCursorAfter, h1]
      rfl
    have hd2 : drainedCursorAfter stores.inviteTokens cs.inviteTokens =
        cs.inviteTokens := by
      rw [drainedCursorAfter, h2]
      rfl
    have hd3 : drainedCursorAfter stores.ephemeralKeys cs.ephemeralKeys =
        cs.ephemeralKeys := by
      rw [drainedCursorAfter, h3]
      rfl
    rw [hd1, hd2, hd3]
    obtain ⟨c1, c2, c3⟩ := cs
    simp
  | succ g ihg =>
    intro cs calls rounds fuel hg hf
    obtain ⟨f, rfl⟩ : ∃ f, fuel = f + 1 := ⟨fuel - 1, by omega⟩
    rw [drainMeasure] at hg
    have htot : ¬((Pusher.fetchRound cfg stores shadow cs).fst = 0) := by
      intro h0
      rw [fetchRound_fst, takenRows_length, takenRows_length, takenRows_length] at h0
      omega
    rw [drainLoop_step, if_neg htot, hor calls, fetchRound_snd]
    have e1 : rowsAfter (nextCursorAfter stores.localAssocs cs.assocs (some 100))
        stores.localAssocs = (rowsAfter cs.assocs stores.localAssocs).drop 100 :=
      rowsAfter_nextCursor stores.localAssocs hs1 cs.assocs 100
    have e2 : rowsAfter (nextCursorAfter stores.inviteTokens cs.inviteTokens (some 100))
        stores.inviteTokens = (rowsAfter cs.inviteTokens stores.inviteTokens).drop 100 :=
      rowsAfter_nextCursor stores.inviteTokens hs2 cs.inviteTokens 100
    have e3 : rowsAfter (nextCursorAfter stores.ephemeralKeys cs.ephemeralKeys (some 100))
        stores.ephemeralKeys = (rowsAfter cs.ephemeralKeys stores.ephemeralKeys).drop 100 :=
      rowsAfter_nextCursor stores.ephemeralKeys hs3 cs.ephemeralKeys 100
    have hmeas : drainMeasure stores
        ⟨nextCursorAfter stores.localAssocs cs.assocs (some 100),
         nextCursorAfter stores.inviteTokens cs.inviteTokens (some 100),
         nextCursorAfter stores.ephemeralKeys cs.ephemeralKeys (some 100)⟩ = g := by
      rw [drainMeasure]
      simp only [e1, e2, e3, List.length_drop]
      omega
    rw [ihg _ (calls + 1) (rounds + 1) f hmeas (by omega)]
    have hdc1 : drainedCursorAfter stores.localAssocs
        (nextCursorAfter stores.localAssocs cs.assocs (some 100)) =
          drainedCursorAfter stores.localAssocs cs.assocs :=
      drainedCursorAfter_nextCursor stores.localAssocs hs1 cs.assocs 100
    have hdc2 : drainedCursorAfter stores.inviteTokens
        (nextCursorAfter stores.inviteTokens cs.inviteTokens (some 100)) =
          drainedCursorAfter stores.inviteTokens cs.inviteTokens :=
      drainedCursorAfter_nextCursor stores.inviteTokens hs2 cs.inviteTokens 100
    have hdc3 : drainedCursorAfter stores.ephemeralKeys
        (nextCursorAfter stores.ephemeralKeys cs.ephemeralKeys (some 100)) =
          drainedCursorAfter stores.ephemeralKeys cs.ephemeralKeys :=
      drainedCursorAfter_nextCursor stores.ephemeralKeys hs3 cs.ephemeralKeys 100
    rw [hdc1, hdc2, hdc3]
    have hcalls : calls + 1 + g = calls + (g + 1) := by omega
    have hrounds : rounds + 1 + g + 1 = rounds + (g + 1) + 1 := by omega
    rw [hcalls, hrounds]

lemma cursorsStep_mono (cfg : PusherConfig) (stores : ReplicationStores)
    (shadow : Bool) (cs : Cursors) :
    cs.assocs ≤ (cursorsStep cfg stores shadow cs).assocs ∧
      cs.inviteTokens ≤ (cursorsStep cfg stores shadow cs).inviteTokens ∧
      cs.ephemeralKeys ≤ (cursorsStep cfg stores shadow cs).ephemeralKeys := by
  rw [cursorsStep, fetchRound_snd]
  exact ⟨le_nextCursorAfter _ _ _, le_nextCursorAfter _ _ _, le_nextCursorAfter _ _ _⟩

lemma cursorsStep_iterate_mono (cfg : PusherConfig) (stores : ReplicationStores)
    (shadow : Bool) :
    ∀ (j : Nat) (cs : Cursors),
      cs.assocs ≤ ((cursorsStep cfg stores shadow)^[j] cs).assocs ∧
        cs.inviteTokens ≤ ((cursorsStep cfg stores shadow)^[j] cs).inviteTokens ∧
        cs.ephemeralKeys ≤ ((cursorsStep cfg stores shadow)^[j] cs).ephemeralKeys := by
  intro j
  induction j with
  | zero => intro cs; simp
  | succ j ih =>
    intro cs
    rw [Function.iterate_succ_apply]
    have h1 := cursorsStep_mono cfg stores shadow cs
    have h2 := ih (cursorsStep cfg stores shadow cs)
    exact ⟨le_trans h1.1 h2.1, le_trans h1.2.1 h2.2.1, le_trans h1.2.2 h2.2.2⟩

lemma drainLoop_cursors_iterate (cfg : PusherConfig) (stores : ReplicationStores)
    (shadow : Bool) (oracle : Nat → DeliveryOutcome) :
    ∀ (fuel : Nat) (cs : Cursors) (calls rounds : Nat),
      ∃ j,
        (Pusher.drainLoop cfg stores shadow oracle fuel cs calls rounds).cursors =
          (cursorsStep cfg stores shadow)^[j] cs ∧
        ∀ i < j, oracle (calls + i) = DeliveryOutcome.success := by
  intro fuel
  induction fuel with
  | zero =>
    intro cs calls rounds
    exact ⟨0, rfl, fun i hi => absurd hi (by omega)⟩
  | succ f ih =>
    intro cs calls rounds
    rw [drainLoop_step]
    by_cases h0 : (Pusher.fetchRound cfg stores shadow cs).fst = 0
    · rw [if_pos h0]
      exact ⟨0, rfl, fun i hi => absurd hi (by omega)⟩
    · rw [if_neg h0]
      cases hoc : oracle calls with
      | success =>
        obtain ⟨j, hj, hsucc⟩ :=
          ih ((Pusher.fetchRound cfg stores shadow cs).snd) (calls + 1) (rounds + 1)
        refine ⟨j + 1, ?_, ?_⟩
        · rw [hj, Function.iterate_succ_apply]
          rfl
        · intro i hi
          cases i with
          | zero => simpa using hoc
          | succ i2 =>
            have := hsucc i2 (by omega)
            rw [show calls + (i2 + 1) = calls + 1 + i2 from by omega]
            exact this
      | failure =>
        exact ⟨0, rfl, fun i hi => absurd hi (by omega)⟩
      | exception =>
        exact ⟨0, rfl, fun i hi => absurd hi (by omega)⟩

lemma mem_fetchAfterId {α : Type} {l : List (Int × α)} {c : Int}
    {lim : Option Nat} {x : Int × α} (h : x ∈ (fetchAfterId l c lim).fst) :
    x ∈ rowsAfter c l :=
  mem_takenRows (show x ∈ takenRows l c lim from h)

/-! ### Claim theorems -/

/-- Claim C1: at most one push session per peer is active at a time.  If
`Pusher._push_to_peer` is invoked while `is_being_pushed_to` is set, the
call is a no-op: the peer state is unchanged (no cursor write) and no
fetch round or delivery call happens.  Otherwise the flag is cleared
before the session ends on every exit path (normal drain, delivery
failure, unexpected exception, i.e. for every delivery oracle and fuel),
so it is false again after the session ends. -/
theorem c1_single_flight (cfg : PusherConfig) (stores : ReplicationStores)
    (oracle : Nat → DeliveryOutcome) (fuel : Nat) (p : PusherPeerState) :
    (p.isBeingPushedTo = true →
      Pusher.pushToPeer cfg stores oracle fuel p = ⟨p, 0, 0⟩) ∧
    (p.isBeingPushedTo = false →
      (Pusher.pushToPeer cfg stores oracle fuel p).peer.isBeingPushedTo = false) := by
  constructor
  · intro h
    simp [Pusher.pushToPeer, h]
  · intro h
    simp [Pusher.pushToPeer, h]

/-- Witness for C1 at concrete inputs: a flagged peer is untouched, and
an unflagged peer ends its session with the flag false. -/
theorem c1_single_flight_witness :
    Pusher.pushToPeer cfgPlain storesOne succOracle 2 ⟨true, false, ⟨0, 0, 0⟩⟩ =
      ⟨⟨true, false, ⟨0, 0, 0⟩⟩, 0, 0⟩ ∧
    (Pusher.pushToPeer cfgPlain storesOne succOracle 2
      ⟨false, false, ⟨0, 0, 0⟩⟩).peer.isBeingPushedTo = false :=
  ⟨(c1_single_flight cfgPlain storesOne succOracle 2 ⟨true, false, ⟨0, 0, 0⟩⟩).1 rfl,
   (c1_single_flight cfgPlain storesOne succOracle 2 ⟨false, false, ⟨0, 0, 0⟩⟩).2 rfl⟩

/-- Claim C2: every fetch requests only rows with ids strictly greater
than the current cursors; the cursors a session ends with are reached by
iterating the per-iteration cursor persistence exactly along successful
deliveries (so a failing `pushUpdates` aborts the session with the
cursors at their last-confirmed values); and the final cursors are
componentwise at least the initial ones (monotone non-decreasing). -/
theorem c2_cursor_monotonic (cfg : PusherConfig) (stores : ReplicationStores)
    (shadow : Bool) (oracle : Nat → DeliveryOutcome) (fuel : Nat) (cs : Cursors)
    (calls rounds : Nat) :
    (∀ x ∈ (fetchAfterId stores.localAssocs cs.assocs
        (some ASSOCIATIONS_PUSH_LIMIT)).fst, cs.assocs < x.fst) ∧
    (∀ x ∈ (fetchAfterId stores.inviteTokens cs.inviteTokens
        (some INVITE_TOKENS_PUSH_LIMIT)).fst, cs.inviteTokens < x.fst) ∧
    (∀ x ∈ (fetchAfterId stores.ephemeralKeys cs.ephemeralKeys
        (some EPHEMERAL_PUBLIC_KEYS_PUSH_LIMIT)).fst, cs.ephemeralKeys < x.fst) ∧
    (∃ j,
      (Pusher.drainLoop cfg stores shadow oracle fuel cs calls rounds).cursors =
        (cursorsStep cfg stores shadow)^[j] cs ∧
      ∀ i < j, oracle (calls + i) = DeliveryOutcome.success) ∧
    cs.assocs ≤
      (Pusher.drainLoop cfg stores shadow oracle fuel cs calls rounds).cursors.assocs ∧
    cs.inviteTokens ≤
      (Pusher.drainLoop cfg stores shadow oracle fuel cs calls rounds).cursors.inviteTokens ∧
    cs.ephemeralKeys ≤
      (Pusher.drainLoop cfg stores shadow oracle fuel cs calls rounds).cursors.ephemeralKeys := by
  obtain ⟨j, hj, hsucc⟩ := drainLoop_cursors_iterate cfg stores shadow oracle fuel cs calls rounds
  have hmono := cursorsStep_iterate_mono cfg stores shadow j cs
  refine ⟨fun x hx => mem_rowsAfter_lt (mem_fetchAfterId hx),
    fun x hx => mem_rowsAfter_lt (mem_fetchAfterId hx),
    fun x hx => mem_rowsAfter_lt (mem_fetchAfterId hx),
    ⟨j, hj, hsucc⟩, ?_, ?_, ?_⟩
  · rw [hj]; exact hmono.1
  · rw [hj]; exact hmono.2.1
  · rw [hj]; exact hmono.2.2

/-- Witness for C2 at concrete inputs: the single fetched row has id
greater than the cursor 0, and the session's final cursors are an
iterate of the cursor-persistence step along successful deliveries. -/
theorem c2_cursor_monotonic_witness :
    ((0 : Int) < (1 : Int)) ∧
    (∃ j,
      (Pusher.drainLoop cfgPlain storesOne false succOracle 2 ⟨0, 0, 0⟩ 0 0).cursors =
        (cursorsStep cfgPlain storesOne false)^[j] (⟨0, 0, 0⟩ : Cursors) ∧
      ∀ i < j, succOracle (0 + i) = DeliveryOutcome.success) := by
  have h := c2_cursor_monotonic cfgPlain storesOne false succOracle 2 ⟨0, 0, 0⟩ 0 0
  refine ⟨?_, h.2.2.2.1⟩
  exact h.1 (1, assocLive) (by decide)

lemma verifySignedAssociation_some (servername : String) (sigs : Signatures)
    (a : SignedAssoc) (ha : a.signatures = some sigs) :
    RemotePeer.verifySignedAssociation servername a =
      match signatureIds a servername with
      | [] => VerifyOutcome.noMatchingSignature (sigs.map Prod.fst) servername
      | kid :: _ =>
        if pyStartsWith kid (SIGNING_KEY_ALGORITHM ++ ":") then
          VerifyOutcome.delegateVerify servername
        else VerifyOutcome.noMatchingSignature (sigs.map Prod.fst) servername := by
  simp only [RemotePeer.verifySignedAssociation, ha]

/-- Claim C3 counterexample: on a record whose only signature under the
required server "srv" uses key id "rsa:0", the code rejects with a
no-matching-signature condition whose payload is
`assoc['signatures'].keys()` - the server names of the signatures map -
and not the set of signature key ids actually present, contradicting the
claim's description of the carried payload. -/
theorem c3_claim_counterexample :
    RemotePeer.verifySignedAssociation "srv" sgOnlyRsa =
      VerifyOutcome.noMatchingSignature ["srv"] "srv" ∧
    specPresentKeyIds sgOnlyRsa "srv" = ["rsa:0"] ∧
    RemotePeer.verifySignedAssociation "srv" sgOnlyRsa ≠
      VerifyOutcome.noMatchingSignature (specPresentKeyIds sgOnlyRsa "srv") "srv" := by
  refine ⟨by decide, by decide, by decide⟩

/-- Claim C3 (amended): `verifySignedAssociation` fails with the
missing-signatures condition exactly when the record has no `signatures`
field; when the supported-algorithm key-id list under this server is
empty or its first element does not begin with "ed25519:", it fails with
the no-matching-signature condition carrying the server names present in
the record's signatures map (not the key ids) together with the required
server name; otherwise it delegates to the verification capability. -/
theorem c3_verify_conditions (servername : String) (a : SignedAssoc) :
    (RemotePeer.verifySignedAssociation servername a = VerifyOutcome.noSignatures
      ↔ a.signatures = none) ∧
    (∀ sigs, a.signatures = some sigs →
      (signatureIds a servername = [] ∨
        (∃ kid rest, signatureIds a servername = kid :: rest ∧
          pyStartsWith kid (SIGNING_KEY_ALGORITHM ++ ":") = false)) →
      RemotePeer.verifySignedAssociation servername a =
        VerifyOutcome.noMatchingSignature (sigs.map Prod.fst) servername) ∧
    (∀ kid rest, signatureIds a servername = kid :: rest →
      pyStartsWith kid (SIGNING_KEY_ALGORITHM ++ ":") = true →
      RemotePeer.verifySignedAssociation servername a =
        VerifyOutcome.delegateVerify servername) := by
  cases ha : a.signatures with
  | none =>
    refine ⟨by simp [RemotePeer.verifySignedAssociation, ha], ?_, ?_⟩
    · intro sigs hsig
      cases hsig
    · intro kid rest hk
      simp [signatureIds, ha] at hk
  | some sigs0 =>
    have hv := verifySignedAssociation_some servername sigs0 a ha
    refine ⟨?_, ?_, ?_⟩
    · constructor
      · intro hveq
        exfalso
        rw [hv] at hveq
        cases hk : signatureIds a servername with
        | nil => rw [hk] at hveq; simp at hveq
        | cons kid rest =>
          rw [hk] at hveq
          by_cases hst : pyStartsWith kid (SIGNING_KEY_ALGORITHM ++ ":") = true
          · simp [hst] at hveq
          · simp [hst] at hveq
      · intro hnone
        cases hnone
    · intro sigs hsig hcond
      have hss : sigs0 = sigs := Option.some.inj hsig
      subst hss
      rw [hv]
      rcases hcond with hnil | ⟨kid, rest, hk, hfalse⟩
      · rw [hnil]
      · rw [hk]
        simp [hfalse]
    · intro kid rest hk htrue
      rw [hv, hk]
      simp [htrue]

/-- Witness for C3 (amended) at concrete inputs: an ed25519-signed
record delegates, an rsa-only record is rejected carrying the server
names present, and a record without `signatures` hits the
missing-signatures condition. -/
theorem c3_verify_conditions_witness :
    RemotePeer.verifySignedAssociation "srv" sgEd =
      VerifyOutcome.delegateVerify "srv" ∧
    RemotePeer.verifySignedAssociation "srv" sgOnlyRsa =
      VerifyOutcome.noMatchingSignature ["srv"] "srv" ∧
    RemotePeer.verifySignedAssociation "srv" sgNone =
      VerifyOutcome.noSignatures := by
  refine ⟨?_, ?_, ?_⟩
  · exact (c3_verify_conditions "srv" sgEd).2.2 "ed25519:0" [] (by decide) (by decide)
  · exact (c3_verify_conditions "srv" sgOnlyRsa).2.1 [("srv", [("rsa:0", "x")])]
      rfl (Or.inl (by decide))
  · exact (c3_verify_conditions "srv" sgNone).1.mpr rfl

/-- Claim C4: `RemotePeer.pushUpdates` resolves every delivery case
through the asynchronous outcome (the embedding is a total outcome
function, never a synchronous exception): it resolves success exactly
when the HTTP status is in `[200, 300)`; for any other status with a
readable, JSON-parsable body it resolves failure carrying the parsed
error payload; and on transport-level failure it resolves failure
carrying the underlying transport error. -/
theorem c4_push_outcome {J : Type} (parse : String → Except String J)
    (code : Int) (bodyRead : Except String String) :
    ((∃ c, RemotePeer.pushUpdatesOutcome parse (HttpResult.response code bodyRead) =
        PushOutcome.success c) ↔ (200 ≤ code ∧ code < 300)) ∧
    (200 ≤ code ∧ code < 300 →
      RemotePeer.pushUpdatesOutcome parse (HttpResult.response code bodyRead) =
        PushOutcome.success code) ∧
    (∀ body obj, ¬(200 ≤ code ∧ code < 300) → bodyRead = Except.ok body →
      parse body = Except.ok obj →
      RemotePeer.pushUpdatesOutcome parse (HttpResult.response code bodyRead) =
        PushOutcome.remoteError obj) ∧
    (∀ e, RemotePeer.pushUpdatesOutcome parse (HttpResult.transportFailure e) =
      PushOutcome.otherFailure e) := by
  by_cases hc : 200 ≤ code ∧ code < 300
  · refine ⟨⟨fun _ => hc, fun _ => ⟨code, ?_⟩⟩, fun _ => ?_,
      fun body obj hn _ _ => absurd hc hn, fun e => rfl⟩
    · simp [RemotePeer.pushUpdatesOutcome, hc]
    · simp [RemotePeer.pushUpdatesOutcome, hc]
  · refine ⟨⟨?_, fun h => absurd h hc⟩, fun h => absurd h hc,
      fun body obj _ hbr hp => ?_, fun e => rfl⟩
    · rintro ⟨c, hcc⟩
      exfalso
      cases hbr : bodyRead with
      | ok body =>
        cases hp : parse body with
        | ok obj => simp [RemotePeer.pushUpdatesOutcome, hc, hbr, hp] at hcc
        | error e => simp [RemotePeer.pushUpdatesOutcome, hc, hbr, hp] at hcc
      | error e => simp [RemotePeer.pushUpdatesOutcome, hc, hbr] at hcc
    · simp [RemotePeer.pushUpdatesOutcome, hc, hbr, hp]

/-- Witness for C4 at concrete inputs: a 204 response resolves success,
a 500 response with JSON body resolves the remote-error failure, and a
transport failure is passed through to the errback. -/
theorem c4_push_outcome_witness :
    RemotePeer.pushUpdatesOutcome okParse (HttpResult.response 204 (Except.ok "")) =
      PushOutcome.success 204 ∧
    RemotePeer.pushUpdatesOutcome okParse (HttpResult.response 500 (Except.ok "err")) =
      PushOutcome.remoteError "err" ∧
    RemotePeer.pushUpdatesOutcome okParse (HttpResult.transportFailure "timeout") =
      PushOutcome.otherFailure "timeout" :=
  ⟨(c4_push_outcome okParse 204 (Except.ok "")).2.1 (by decide),
   (c4_push_outcome okParse 500 (Except.ok "err")).2.2.1 "err" "err" (by decide) rfl rfl,
   (c4_push_outcome okParse 500 (Except.ok "err")).2.2.2 "timeout"⟩

/-- Claim C5 counterexample: `LocalPeer.pushUpdates` iterates the batch
dict in its enumeration order, not in ascending row-id order.  With the
tombstone (id 7) enumerated before the live binding (id 6) for the same
identity, the code ends with the mapping live, while ascending-order
processing would remove it. -/
theorem c5_claim_counterexample :
    (LocalPeer.pushUpdates peerC5 [] batchC5).store ≠
      (LocalPeer.pushUpdatesAscendingSpec peerC5 [] batchC5).store ∧
    (LocalPeer.pushUpdatesAscendingSpec peerC5 [] batchC5).store = [] ∧
    GlobalStore.lookupAssoc (LocalPeer.pushUpdates peerC5 [] batchC5).store
      ("email", "a@b.c") ≠ none := by
  refine ⟨by decide, by decide, by decide⟩

/-- Claim C5 (amended): `LocalPeer.pushUpdates` always resolves
successfully, and processes the batch in its enumeration order under the
re-delivery guard: for every identity, the stored state afterwards is
determined by the last enumerated entry with id greater than `lastId`
and that identity - an upsert tagged with this server name and the
entry's row id when its `mxid` is non-null, a removal when it is null -
and is unchanged where no such entry exists. -/
theorem c5_local_apply (p : LocalPeer) (st : GlobalStore)
    (b : List (Int × SignedAssoc)) :
    (p.pushUpdates st b).ok = true ∧
    ∀ k, ((p.pushUpdates st b).store).lookupAssoc k =
      match lastRelevantWrite p.lastId p.servername b k with
      | some w => w
      | none => st.lookupAssoc k :=
  ⟨rfl, fun k => localPush_store_lookup p st b k⟩

/-- Claim C6: applying the same overlapping batch twice in succession
through `LocalPeer.pushUpdates` (the second call on the peer object the
first returned) leaves the global store exactly as one application. -/
theorem c6_local_apply_idempotent (p : LocalPeer) (st : GlobalStore)
    (b : List (Int × SignedAssoc))
    (_hoverlap : ∃ e ∈ b, e.fst ≤ p.lastId) :
    (LocalPeer.pushUpdates (p.pushUpdates st b).peer
        ((p.pushUpdates st b).store) b).store =
      (p.pushUpdates st b).store := by
  have hpeer : (p.pushUpdates st b).peer = p := rfl
  rw [hpeer]
  exact pushStore_idem p st b

/-- Witness for C6 at concrete inputs: a batch overlapping the
construction-time `lastId` (id 3 of [3, 7] is at most 5) applied twice
leaves the store as after one application. -/
theorem c6_local_apply_idempotent_witness :
    (∃ e ∈ batchC6, e.fst ≤ peerC6.lastId) ∧
    (LocalPeer.pushUpdates (LocalPeer.pushUpdates peerC6 [] batchC6).peer
        ((LocalPeer.pushUpdates peerC6 [] batchC6).store) batchC6).store =
      (LocalPeer.pushUpdates peerC6 [] batchC6).store :=
  ⟨⟨(3, sgLive), by decide, by decide⟩,
   c6_local_apply_idempotent peerC6 [] batchC6 ⟨(3, sgLive), by decide, by decide⟩⟩

set_option maxRecDepth 100000 in
/-- Claim C7 counterexample: a peer with N = 300 unsent rows spread as
150 associations + 150 invite tokens drains in 2 delivery calls, not
⌈300 / 100⌉ = 3: the loop makes one combined `pushUpdates` call per
round and each round fetches up to 100 rows from every category. -/
theorem c7_claim_counterexample :
    (rowsAfter 0 storesBig.localAssocs).length
        + (rowsAfter 0 storesBig.inviteTokens).length
        + (rowsAfter 0 storesBig.ephemeralKeys).length = 300 ∧
    (Pusher.drainLoop cfgPlain storesBig false succOracle 5 ⟨0, 0, 0⟩ 0 0).deliveries = 2 ∧
    (Pusher.drainLoop cfgPlain storesBig false succOracle 5 ⟨0, 0, 0⟩ 0 0).exit =
      SessionExit.drained ∧
    (300 + 99) / 100 = 3 ∧
    (2 : Nat) ≠ 3 := by
  refine ⟨by decide, by decide, by decide, by decide, by decide⟩

/-- Claim C7 (amended): for sorted stores and an all-success delivery
oracle, a session with enough fuel performs exactly
`max (⌈Na / 100⌉) (⌈Ni / 100⌉) (⌈Ne / 100⌉)` delivery calls (the
per-category unsent counts, limit 100 each), exits the loop normally
with one final empty fetch round, ends with every category fully
drained, and every category that had at least one unsent row ends with
its cursor equal to that category's maximum store id (the others keep
their previous cursor). -/
theorem c7_drain_session (cfg : PusherConfig) (stores : ReplicationStores)
    (shadow : Bool) (oracle : Nat → DeliveryOutcome) (fuel : Nat) (cs : Cursors)
    (calls rounds : Nat)
    (hs1 : RowSorted stores.localAssocs)
    (hs2 : RowSorted stores.inviteTokens)
    (hs3 : RowSorted stores.ephemeralKeys)
    (hor : ∀ i, oracle i = DeliveryOutcome.success)
    (hf : drainMeasure stores cs + 1 ≤ fuel) :
    Pusher.drainLoop cfg stores shadow oracle fuel cs calls rounds =
      ⟨⟨drainedCursorAfter stores.localAssocs cs.assocs,
        drainedCursorAfter stores.inviteTokens cs.inviteTokens,
        drainedCursorAfter stores.ephemeralKeys cs.ephemeralKeys⟩,
        calls + drainMeasure stores cs, rounds + drainMeasure stores cs + 1,
        SessionExit.drained⟩ ∧
    rowsAfter (drainedCursorAfter stores.localAssocs cs.assocs)
      stores.localAssocs = [] ∧
    rowsAfter (drainedCursorAfter stores.inviteTokens cs.inviteTokens)
      stores.inviteTokens = [] ∧
    rowsAfter (drainedCursorAfter stores.ephemeralKeys cs.ephemeralKeys)
      stores.ephemeralKeys = [] ∧
    (rowsAfter cs.assocs stores.localAssocs ≠ [] →
      drainedCursorAfter stores.localAssocs cs.assocs =
        ((stores.localAssocs.getLast?).map Prod.fst).getD cs.assocs) ∧
    (rowsAfter cs.inviteTokens stores.inviteTokens ≠ [] →
      drainedCursorAfter stores.inviteTokens cs.inviteTokens =
        ((stores.inviteTokens.getLast?).map Prod.fst).getD cs.inviteTokens) ∧
    (rowsAfter cs.ephemeralKeys stores.ephemeralKeys ≠ [] →
      drainedCursorAfter stores.ephemeralKeys cs.ephemeralKeys =
        ((stores.ephemeralKeys.getLast?).map Prod.fst).getD cs.ephemeralKeys) := by
  refine ⟨drainLoop_all_success cfg stores shadow oracle hs1 hs2 hs3 hor
      (drainMeasure stores cs) cs calls rounds fuel rfl hf,
    rowsAfter_drainedCursor_nil stores.localAssocs hs1 cs.assocs,
    rowsAfter_drainedCursor_nil stores.inviteTokens hs2 cs.inviteTokens,
    rowsAfter_drainedCursor_nil stores.ephemeralKeys hs3 cs.ephemeralKeys,
    ?_, ?_, ?_⟩
  · intro hne
    rw [drainedCursorAfter, rowsAfter_getLast_of_ne_nil stores.localAssocs hs1 cs.assocs hne]
  · intro hne
    rw [drainedCursorAfter, rowsAfter_getLast_of_ne_nil stores.inviteTokens hs2 cs.inviteTokens hne]
  · intro hne
    rw [drainedCursorAfter, rowsAfter_getLast_of_ne_nil stores.ephemeralKeys hs3 cs.ephemeralKeys hne]

/-- Witness for C7 (amended) at concrete inputs: one unsent association
drains in a single delivery call plus one empty round, ending with the
association cursor at the store maximum id 1. -/
theorem c7_drain_session_witness :
    Pusher.drainLoop cfgPlain storesOne false succOracle 2 ⟨0, 0, 0⟩ 0 0 =
      ⟨⟨1, 0, 0⟩, 1, 2, SessionExit.drained⟩ := by
  have h := (c7_drain_session cfgPlain storesOne false succOracle 2 ⟨0, 0, 0⟩ 0 0
    (by decide) (by decide) (by decide) (fun i => rfl) (by decide)).1
  rw [h]
  decide

/-- Claim C8 counterexample: "abc" is acceptable unpadded base64 (and is
not decodable hex, having odd length), yet because it parses as a
base-16 integer the constructor takes the hex path and `unhexlify`
raises an uncaught error - the key is neither accepted nor rejected
with the configuration error. -/
theorem c8_claim_counterexample :
    b64DecodeOkModel "abc" = true ∧
    unhexlifyOk "abc" = false ∧
    int16Parses "abc" = true ∧
    RemotePeer.decodePeerPubkey b64DecodeOkModel "abc" =
      PeerKeyDecodeResult.uncaughtDecodeError ∧
    PeerKeyDecodeResult.uncaughtDecodeError ≠ PeerKeyDecodeResult.base64Accepted ∧
    PeerKeyDecodeResult.uncaughtDecodeError ≠ PeerKeyDecodeResult.hexAcceptedWithWarning ∧
    PeerKeyDecodeResult.uncaughtDecodeError ≠ PeerKeyDecodeResult.configError := by
  refine ⟨by decide, by decide, by decide, by decide, by decide, by decide, by decide⟩

/-- Claim C8 (amended): hex detection by base-16 parse happens first and
wins: a detected-hex key that `unhexlify` accepts is accepted with the
deprecation warning; a detected-hex key that `unhexlify` rejects (odd
length) raises an uncaught error rather than the configuration error,
even when the key is valid base64; a key failing the base-16 parse is
accepted when base64 decoding succeeds and raises the configuration
error when it fails; and every non-empty `unhexlify`-decodable key is
base-16 parseable, so genuine hex keys always take the hex path. -/
theorem c8_key_decoding (b64DecodeOk : String → Bool) (s : String) :
    (int16Parses s = true → unhexlifyOk s = true →
      RemotePeer.decodePeerPubkey b64DecodeOk s =
        PeerKeyDecodeResult.hexAcceptedWithWarning) ∧
    (int16Parses s = true → unhexlifyOk s = false →
      RemotePeer.decodePeerPubkey b64DecodeOk s =
        PeerKeyDecodeResult.uncaughtDecodeError) ∧
    (int16Parses s = false → b64DecodeOk s = true →
      RemotePeer.decodePeerPubkey b64DecodeOk s =
        PeerKeyDecodeResult.base64Accepted) ∧
    (int16Parses s = false → b64DecodeOk s = false →
      RemotePeer.decodePeerPubkey b64DecodeOk s =
        PeerKeyDecodeResult.configError) ∧
    (s ≠ "" → unhexlifyOk s = true → int16Parses s = true) := by
  refine ⟨fun h1 h2 => by simp [RemotePeer.decodePeerPubkey, h1, h2],
    fun h1 h2 => by simp [RemotePeer.decodePeerPubkey, h1, h2],
    fun h1 h2 => by simp [RemotePeer.decodePeerPubkey, h1, h2],
    fun h1 h2 => by simp [RemotePeer.decodePeerPubkey, h1, h2], ?_⟩
  intro hne hok
  rw [unhexlifyOk, Bool.and_eq_true] at hok
  have hall := hok.1
  obtain ⟨l⟩ := s
  obtain ⟨c0, rest, rfl⟩ : ∃ c0 rest, l = c0 :: rest := by
    cases l with
    | nil => exact absurd rfl hne
    | cons c0 rest => exact ⟨c0, rest, rfl⟩
  have hall' : (c0 :: rest).all isHexDigitCh = true := hall
  rw [List.all_cons, Bool.and_eq_true] at hall'
  have hc0 : isHexDigitCh c0 = true := hall'.1
  have hsign : stripSign (c0 :: rest) = c0 :: rest := by
    rw [stripSign, if_neg]
    rintro (h | h) <;> rw [h] at hc0 <;> exact absurd hc0 (by decide)
  rw [int16Parses]
  rw [show (String.mk (c0 :: rest)).data = c0 :: rest from rfl, hsign]
  cases rest with
  | nil =>
    have h0x : strip0x (c0 :: []) = c0 :: [] := rfl
    rw [h0x]
    simp only [List.isEmpty_cons, Bool.not_false, Bool.true_and]
    exact hall
  | cons c1 rest2 =>
    have hc1 : isHexDigitCh c1 = true := by
      have h2 := hall'.2
      rw [List.all_cons, Bool.and_eq_true] at h2
      exact h2.1
    have h0x : strip0x (c0 :: c1 :: rest2) = c0 :: c1 :: rest2 := by
      rw [strip0x, if_neg]
      rintro ⟨-, h | h⟩ <;> rw [h] at hc1 <;> exact absurd hc1 (by decide)
    rw [h0x]
    simp only [List.isEmpty_cons, Bool.not_false, Bool.true_and]
    exact hall

/-- Witness for C8 (amended) at concrete inputs: an even hex key is
accepted with the warning; an odd-length hex-parseable key raises the
uncaught error; a base64 key is accepted; an undecodable key raises the
configuration error. -/
theorem c8_key_decoding_witness :
    RemotePeer.decodePeerPubkey b64DecodeOkModel "00ff" =
      PeerKeyDecodeResult.hexAcceptedWithWarning ∧
    RemotePeer.decodePeerPubkey b64DecodeOkModel "abcde" =
      PeerKeyDecodeResult.uncaughtDecodeError ∧
    RemotePeer.decodePeerPubkey b64DecodeOkModel "bm90aGV4" =
      PeerKeyDecodeResult.base64Accepted ∧
    RemotePeer.decodePeerPubkey b64DecodeOkModel "not*hex" =
      PeerKeyDecodeResult.configError :=
  ⟨(c8_key_decoding b64DecodeOkModel "00ff").1 (by decide) (by decide),
   (c8_key_decoding b64DecodeOkModel "abcde").2.1 (by decide) (by decide),
   (c8_key_decoding b64DecodeOkModel "bm90aGV4").2.2.1 (by decide) (by decide),
   (c8_key_decoding b64DecodeOkModel "not*hex").2.2.2.1 (by decide) (by decide)⟩

/-- Claim C9 counterexample: the rewriting is Python `str.replace`,
which replaces every occurrence of `":" + shadow_hs_master`, not only
the account-identifier domain suffix: for mxid "@u:hs:8448" with master
"hs" and slave "shadow" the code signs "@u:shadow:8448", while
suffix-only rewriting would leave the mxid unmodified (its domain suffix
is ":8448", not ":hs"). -/
theorem c9_claim_counterexample :
    (Pusher.getSignedAssociationsAfterId cfgShadow rowsC9 0 (some 100) true).fst ≠
      (Pusher.getSignedAssociationsAfterIdSuffixSpec cfgShadow rowsC9 0 (some 100) true).fst ∧
    (Pusher.getSignedAssociationsAfterId cfgShadow rowsC9 0 (some 100) true).fst =
      [(1, signModel ⟨"email", "e@x.y", some "@u:shadow:8448"⟩)] ∧
    (Pusher.getSignedAssociationsAfterIdSuffixSpec cfgShadow rowsC9 0 (some 100) true).fst =
      [(1, signModel ⟨"email", "e@x.y", some "@u:hs:8448"⟩)] := by
  refine ⟨by decide, by decide, by decide⟩

/-- Claim C9 (amended): `getSignedAssociationsAfterId` signs every
fetched record after applying the shadow rewriting, and the rewriting
replaces every occurrence of `":" + shadow_hs_master` in the mxid (not
only a domain suffix) exactly when the peer is a shadow target, both
shadow hosts are configured (truthy), and the mxid is non-null and
non-empty; in every other case the record is signed unmodified. -/
theorem c9_shadow_rewrite (cfg : PusherConfig)
    (rows : List (Int × ThreePidAssoc)) (afterId : Int) (limit : Option Nat)
    (shadow : Bool) :
    ((Pusher.getSignedAssociationsAfterId cfg rows afterId limit shadow).fst =
      (fetchAfterId rows afterId limit).fst.map
        (fun r =>
          (r.fst,
            cfg.sign (shadowRewrite cfg.shadowHsMaster cfg.shadowHsSlave shadow r.snd)))) ∧
    ((Pusher.getSignedAssociationsAfterId cfg rows afterId limit shadow).snd =
      (fetchAfterId rows afterId limit).snd) ∧
    (∀ x ∈ (Pusher.getSignedAssociationsAfterId cfg rows afterId limit shadow).fst,
      ∃ a, x.snd = cfg.sign a) ∧
    (shadow = false →
      ∀ a : ThreePidAssoc,
        shadowRewrite cfg.shadowHsMaster cfg.shadowHsSlave shadow a = a) ∧
    (cfg.shadowHsMaster = none →
      ∀ a : ThreePidAssoc,
        shadowRewrite cfg.shadowHsMaster cfg.shadowHsSlave shadow a = a) ∧
    (∀ a : ThreePidAssoc, a.mxid = none →
      shadowRewrite cfg.shadowHsMaster cfg.shadowHsSlave shadow a = a) ∧
    (∀ (hm hsl m : String) (a : ThreePidAssoc), hm ≠ "" → hsl ≠ "" →
      a.mxid = some m → m ≠ "" →
      shadowRewrite (some hm) (some hsl) true a =
        { a with mxid := some (pyStrReplace m (":" ++ hm) (":" ++ hsl)) }) := by
  refine ⟨rfl, rfl, ?_, ?_, ?_, ?_, ?_⟩
  · intro x hx
    obtain ⟨r, _, heq⟩ := List.mem_map.mp hx
    exact ⟨shadowRewrite cfg.shadowHsMaster cfg.shadowHsSlave shadow r.snd,
      by rw [← heq]⟩
  · intro h a
    subst h
    rfl
  · intro h a
    rw [shadowRewrite, h]
    simp [optTruthy]
  · intro a hm
    rw [shadowRewrite]
    split
    · rw [hm]
    · rfl
  · intro hm hsl m a hmne hslne hmx hmne2
    simp [shadowRewrite, optTruthy, hmne, hslne, hmx, hmne2]

/-- Witness for C9 (amended) at concrete inputs: a shadow-target rewrite
replaces all occurrences, and a tombstone passes through unmodified. -/
theorem c9_shadow_rewrite_witness :
    shadowRewrite (some "hs") (some "shadow") true ⟨"email", "e@x.y", some "@u:hs:8448"⟩ =
      ⟨"email", "e@x.y", some (pyStrReplace "@u:hs:8448" ":hs" ":shadow")⟩ ∧
    shadowRewrite (some "hs") (some "shadow") true ⟨"email", "e@x.y", none⟩ =
      ⟨"email", "e@x.y", none⟩ := by
  constructor
  · exact (c9_shadow_rewrite cfgShadow [] 0 none true).2.2.2.2.2.2 "hs" "shadow"
      "@u:hs:8448" ⟨"email", "e@x.y", some "@u:hs:8448"⟩ (by decide) (by decide)
      rfl (by decide)
  · exact (c9_shadow_rewrite cfgShadow [] 0 none true).2.2.2.2.2.1
      ⟨"email", "e@x.y", none⟩ rfl

/-- Claim C10: `LocalPeer` assigns `lastId` only at construction - the
global store's highest row id for this server name, or -1 when there is
none - and `pushUpdates` returns the peer object unchanged, so two
successive calls on the same instance compare entry ids against the same
construction-time threshold. -/
theorem c10_lastid_frame (st st' : GlobalStore) (name : String) (p : LocalPeer)
    (b : List (Int × SignedAssoc)) :
    (st.lastIdFromServer name = none → (LocalPeer.ofStore st name).lastId = -1) ∧
    (∀ i, st.lastIdFromServer name = some i → (LocalPeer.ofStore st name).lastId = i) ∧
    (p.pushUpdates st' b).peer = p ∧
    (LocalPeer.pushUpdates (p.pushUpdates st' b).peer
      ((p.pushUpdates st' b).store) b).peer = p ∧
    (p.pushUpdates st' b).peer.lastId = p.lastId := by
  refine ⟨fun h => ?_, fun i h => ?_, rfl, rfl, rfl⟩
  · simp [LocalPeer.ofStore, h]
  · simp [LocalPeer.ofStore, h]

/-- Witness for C10 at concrete inputs: construction over the empty
store yields `lastId = -1`, and `pushUpdates` leaves the peer object
(and so its threshold) unchanged. -/
theorem c10_lastid_frame_witness :
    (LocalPeer.ofStore [] "srv").lastId = -1 ∧
    (LocalPeer.pushUpdates ⟨"srv", 5⟩ [] [(3, sgLive)]).peer = ⟨"srv", 5⟩ :=
  ⟨(c10_lastid_frame [] [] "srv" ⟨"srv", 5⟩ []).1 rfl,
   (c10_lastid_frame [] [] "srv" ⟨"srv", 5⟩ [(3, sgLive)]).2.2.1⟩
